import Mathlib

/-!
go-yadisk: the request/response layer of the Yandex.Disk client.

A shallow embedding of `yadisk/errors.go`, `yadisk/yadisk.go`, `yadisk/disk.go`
and the method `Get` of `yadisk/resources.go`.

Go values are embedded as follows.

* A Go `string` is a Lean `String`; data on the wire (request payloads,
  response bodies, what a writer receives) is a `List Char`, one element per
  unit of the stream.  For ASCII text a unit is a byte.
* A Go function returning `(T, error)` returns a pair of options, so that
  "nil value together with a non-nil error" is a statement about the result
  and not a consequence of the result type.
* Stateful objects (the response body, an `io.Writer`, the destination `v`)
  are passed in and returned explicitly.
* The functions of the Go standard library that the package calls
  (`url.Parse`, `(*URL).ResolveReference`, `(*URL).String`, `json.Marshal`,
  the scanner of `json.Decoder`, `http.DefaultClient`) are the fields of a
  structure `GoStd`; every function of the package takes it as its first
  argument.  `goStd` is an executable model of them, used to evaluate the
  package on concrete inputs.
-/

namespace Yadisk

/-! ## errors.go -/

/-- APIError of errors.go: `Description` has the tag `json:"description"`,
`Code` the tag `json:"error"`. -/
structure APIError where
  Description : String := ""
  Code : String := ""
deriving DecidableEq, Repr, Inhabited

/-- Method `(*APIError).Error` of errors.go; `fmt.Sprintf` with two `%s` verbs
on strings is concatenation. -/
def APIError.Error (e : APIError) : String :=
  if e.Code = "" ∧ e.Description = "" then
    "Yandex.Disk API error"
  else
    "Yandex.Disk API error. Code: " ++ e.Code ++ ". Description: " ++ e.Description ++ "."

/-- The value carried by a `*url.Error`. -/
structure UrlError where
  Op : String
  URL : String
  Err : String
deriving DecidableEq, Repr, Inhabited

/-- Go `error` values that occur in the package. -/
inductive GoError where
  /-- a `*url.Error` -/
  | url (e : UrlError)
  /-- an error made by `net/http` itself, such as `net/http: invalid method` -/
  | http (msg : String)
  /-- a `*json.UnsupportedTypeError` for the named Go type -/
  | jsonUnsupportedType (typ : String)
  /-- a `*json.SyntaxError` -/
  | jsonSyntax (msg : String)
  /-- a `*json.UnmarshalTypeError`: JSON `value` does not fit Go type `typ` -/
  | jsonUnmarshalType (value : String) (typ : String)
  /-- a `*json.InvalidUnmarshalError` -/
  | jsonInvalidUnmarshal (typ : String)
  /-- the value `io.EOF` -/
  | EOF
  /-- the value `io.ErrUnexpectedEOF` -/
  | ErrUnexpectedEOF
  /-- the value `io.ErrShortWrite` -/
  | ErrShortWrite
  /-- a `*APIError` -/
  | api (e : APIError)
  /-- any other error value: transport, context, reader, writer -/
  | other (msg : String)
deriving DecidableEq, Repr, Inhabited

/-- Whether an error value is a `*APIError`. -/
def GoError.isAPIError : GoError → Bool
  | .api _ => true
  | _ => false

/-! ## Values of the standard library -/

/-- The fields of a `url.URL`.  `User` holds the userinfo of the authority,
when there is one. -/
structure URL where
  Scheme : String := ""
  Opaque : String := ""
  User : Option String := none
  Host : String := ""
  Path : String := ""
  RawPath : String := ""
  OmitHost : Bool := false
  ForceQuery : Bool := false
  RawQuery : String := ""
  Fragment : String := ""
  RawFragment : String := ""
deriving DecidableEq, Repr, Inhabited

/-- An `http.Header`: canonical keys with their values. -/
abbrev Header := List (String × List String)

/-- Bytes that may occur in a header field name or in a method (an HTTP
token): visible ASCII without the separators. -/
def isTokenChar (c : Char) : Bool :=
  let n := c.toNat
  (48 ≤ n && n ≤ 57) || (65 ≤ n && n ≤ 90) || (97 ≤ n && n ≤ 122) ||
  [33, 35, 36, 37, 38, 39, 42, 43, 45, 46, 94, 95, 96, 124, 126].contains n

/-- The loop of `textproto.canonicalMIMEHeaderKey`: the first letter and every
letter after a hyphen in upper case, the others in lower case. -/
def canonicalCase : Bool → List Char → List Char
  | _, [] => []
  | upper, c :: cs => (if upper then c.toUpper else c.toLower) :: canonicalCase (c == '-') cs

/-- Function `textproto.CanonicalMIMEHeaderKey`: a key with a byte that is not
allowed in a field name is returned unchanged. -/
def CanonicalMIMEHeaderKey (s : String) : String :=
  if s.data.all isTokenChar then String.mk (canonicalCase true s.data) else s

/-- Method `Header.Values`: the values stored under the canonical form of `key`. -/
def Header.Values (h : Header) (key : String) : List String :=
  match h.lookup (CanonicalMIMEHeaderKey key) with
  | some vs => vs
  | none => []

/-- Method `Header.Set`: the entry of the canonical form of `key` becomes the
single value `value`, replacing what was there. -/
def Header.Set (h : Header) (key value : String) : Header :=
  (CanonicalMIMEHeaderKey key, [value]) :: h.filter (fun kv => kv.1 != CanonicalMIMEHeaderKey key)

/-- The fields of an `http.Request` that the package sets.  `Body` is `none`
for a nil body, otherwise what the body reader delivers. -/
structure Request where
  Method : String
  URL : URL
  Header : Header := []
  Body : Option (List Char) := none
  Host : String := ""
deriving DecidableEq, Repr, Inhabited

/-- A response body, an `io.ReadCloser`. -/
structure Body where
  /-- what further reads deliver, in order -/
  unread : List Char
  /-- the error that a read reports once `unread` is used up; `none` is `io.EOF` -/
  failure : Option GoError := none
  /-- the number of calls of `Close` -/
  closed : Nat := 0
deriving DecidableEq, Repr, Inhabited

/-- The error with which reading ends, `none` for `io.EOF`. -/
def Body.readError (b : Body) : Option GoError :=
  match b.failure with
  | some .EOF => none
  | e => e

/-- The fields of an `http.Response` that the package uses. -/
structure Response where
  StatusCode : Int
  Body : Body
deriving DecidableEq, Repr, Inhabited

/-- A `context.Context` as the package sees it: `Err` is what `ctx.Err()`
returns when the transport call comes back, `none` while the context is
neither cancelled nor timed out. -/
structure Ctx where
  Err : Option GoError := none
deriving DecidableEq, Repr, Inhabited

/-- An `*http.Client`: what `client.Do(req.WithContext(ctx))` returns. -/
abbrev HTTPClient := Ctx → Request → Except GoError Response

/-- An `io.Writer`.  `written` is everything it has accepted; `accept` gives,
from what was accepted before and the slice `p` passed to `Write`, the
results `(n, err)` of that call. -/
structure Writer where
  written : List Char := []
  accept : List Char → List Char → Nat × Option GoError := fun _ p => (p.length, none)

/-- Method `Write` of a writer: the call returns `(n, err)` as `accept` says,
and the first `n` units of `p` are accepted. -/
def Writer.Write (w : Writer) (p : List Char) : Writer × Nat × Option GoError :=
  let r := w.accept w.written p
  ({ w with written := w.written ++ p.take r.1 }, r.1, r.2)

/-- Go values that are passed as a request body.  Pointers are followed by the
encoder, so a pointer to a struct is the struct; a struct lists its exported
fields by their JSON names, in declaration order. -/
inductive GoValue where
  | string (s : String)
  | uint (n : Nat)
  | bool (b : Bool)
  /-- a nil pointer, map, slice or interface inside a value -/
  | nil
  | struct (fields : List (String × GoValue))
  | slice (elems : List GoValue)
  /-- a `map[string]T`, its keys in sorted order -/
  | stringMap (entries : List (String × GoValue))
  /-- a `map[interface{}]interface{}`, nil or not -/
  | ifaceMap (entries : List (GoValue × GoValue))
deriving Repr, Inhabited

/-- A parsed JSON text, as the decoder sees it: object members in the order
of the text, duplicates kept, a number as its literal. -/
inductive JSON where
  | null
  | bool (b : Bool)
  | number (lit : String)
  | string (s : String)
  | array (elems : List JSON)
  | object (members : List (String × JSON))
deriving Repr, Inhabited

/-- What the scanner of a `json.Decoder` finds at the start of its input. -/
inductive ScanResult where
  /-- a complete value, ending after `n` units (leading white space included) -/
  | value (j : JSON) (n : Nat)
  /-- the input ends inside a value -/
  | incomplete
  /-- a syntax error found at unit `n` -/
  | syntaxError (msg : String) (n : Nat)
deriving Repr, Inhabited

/-- The standard library functions called by the package. -/
structure GoStd where
  /-- function `url.Parse`; its error is a `*url.Error` -/
  urlParse : String → Except UrlError URL
  /-- method `(*URL).ResolveReference`, receiver first -/
  resolveReference : URL → URL → URL
  /-- method `(*URL).String` -/
  urlString : URL → String
  /-- function `json.Marshal` -/
  jsonMarshal : GoValue → Except GoError (List Char)
  /-- the scanner of `json.Decoder`, on input that is not only white space -/
  jsonScan : List Char → ScanResult
  /-- variable `http.DefaultClient` -/
  DefaultClient : HTTPClient

/-! ## Standard library functions that are fixed by their documentation -/

/-- Function `validMethod` of net/http: a non-empty token. -/
def validMethod (method : String) : Bool :=
  method.data ≠ [] && method.data.all isTokenChar

/-- Function `removeEmptyPort` of net/http: a host that ends in a colon loses
that colon. -/
def removeEmptyPort (host : String) : String :=
  match host.data.reverse with
  | ':' :: rest => String.mk rest.reverse
  | _ => host

/-- Function `http.NewRequest`: an empty method stands for GET, the method is
checked, the URL parsed, and the request gets a fresh empty header.  A nil
`body` leaves `Body` nil.  Exactly one of its two results is nil. -/
def httpNewRequest (std : GoStd) (method url : String) (body : Option (List Char)) :
    Except GoError Request :=
  let method := if method = "" then "GET" else method
  if !validMethod method then
    .error (.http "net/http: invalid method")
  else
    match std.urlParse url with
    | .error e => .error (.url e)
    | .ok u =>
      let host := removeEmptyPort u.Host
      .ok { Method := method, URL := { u with Host := host }, Header := [], Body := body,
            Host := host }

/-- Method `(*json.Encoder).Encode` on an empty buffer: the JSON encoding of
`v` followed by a newline is written to the buffer. -/
def jsonEncode (std : GoStd) (v : GoValue) : Except GoError (List Char) :=
  match std.jsonMarshal v with
  | .error e => .error e
  | .ok text => .ok (text ++ ['\n'])

/-- Function `ctxhttp.Do`: when the client fails and the context is done, the
error of the context is returned in place of the client's. -/
def ctxhttpDo (ctx : Ctx) (client : HTTPClient) (req : Request) : Except GoError Response :=
  match client ctx req with
  | .ok resp => .ok resp
  | .error err =>
    match ctx.Err with
    | some ctxErr => .error ctxErr
    | none => .error err

/-- White space of JSON. -/
def isSpace (c : Char) : Bool :=
  c == ' ' || c == '\t' || c == '\r' || c == '\n'

/-- How `json.Unmarshal` stores a parsed value in a destination of type `α`,
which is fixed by the Go type of the destination: the new value of the
destination and the error returned. -/
class GoUnmarshal (α : Type) where
  unmarshal : JSON → α → α × Option GoError

/-- Whether the decoder needs to see what follows a value to know that it is
complete: it does for a string, a number and a literal, not for an object or
an array, which end with their closing bracket. -/
def JSON.endsDelayed : JSON → Bool
  | .object _ => false
  | .array _ => false
  | _ => true

/-- Method `(*json.Decoder).Decode` of a fresh decoder on the body `b`, with
destination `v`: the destination, the body and the error afterwards.

* Input that is used up before a value starts gives the reader's error,
  `io.EOF` from a reader that ends normally.
* Input that ends inside a value gives the reader's error, with `io.EOF`
  turned into `io.ErrUnexpectedEOF`.
* A syntax error is returned and `v` is not touched.
* A complete value is stored in `v`; a value whose end is only known from the
  end of the input needs the reader to end with `io.EOF`.

The decoder is taken to read the body up to the end of what it scanned. -/
def jsonDecode (std : GoStd) {α : Type} [GoUnmarshal α] (b : Body) (v : α) :
    α × Body × Option GoError :=
  if b.unread.all isSpace then
    (v, { b with unread := [] }, some (b.readError.getD .EOF))
  else
    match std.jsonScan b.unread with
    | .incomplete => (v, { b with unread := [] }, some (b.readError.getD .ErrUnexpectedEOF))
    | .syntaxError msg n => (v, { b with unread := b.unread.drop n }, some (.jsonSyntax msg))
    | .value j n =>
      if j.endsDelayed && b.unread.length ≤ n && b.readError.isSome then
        (v, { b with unread := [] }, b.readError)
      else
        let r := GoUnmarshal.unmarshal j v
        (r.1, { b with unread := b.unread.drop n }, r.2)

/-- Function `io.Copy(w, b)` without the count: the body is read in slices of
32 KiB, each passed to `Write`; the first error of a write ends the copy, as
does a short write; at the end of the input the reader's error is returned
unless it is `io.EOF`.  The first argument bounds the number of rounds. -/
def ioCopyLoop : Nat → Writer → Body → Writer × Body × Option GoError
  | 0, w, b => (w, b, b.readError)
  | fuel + 1, w, b =>
    if b.unread = [] then
      (w, b, b.readError)
    else
      let p := b.unread.take 32768
      let b1 := { b with unread := b.unread.drop 32768 }
      let r := w.Write p
      match r.2.2 with
      | some ew => (r.1, b1, some ew)
      | none =>
        if r.2.1 ≠ p.length then
          (r.1, b1, some .ErrShortWrite)
        else
          ioCopyLoop fuel r.1 b1

/-- Function `io.Copy(w, b)`. -/
def ioCopy (w : Writer) (b : Body) : Writer × Body × Option GoError :=
  ioCopyLoop b.unread.length w b

/-! ## yadisk.go -/

/-- Constant `defaultBaseURL`. -/
def defaultBaseURL : String := "https://cloud-api.yandex.net/"

/-- Constant `apiVersion`. -/
def apiVersion : String := "1"

/-- Struct `Client` without the two service fields, which only point back to
the client.  `BaseURL` is a non-nil `*url.URL`. -/
structure Client where
  HTTPClient : HTTPClient
  AccessToken : String
  BaseURL : URL

/-- Function `NewClient`.  The error of `url.Parse` is dropped as in the
source; a failed parse, which leaves a nil pointer in Go, is the zero URL
here. -/
def NewClient (std : GoStd) (accessToken : String) : Client :=
  let baseURL := match std.urlParse defaultBaseURL with
    | .ok u => u
    | .error _ => {}
  { HTTPClient := std.DefaultClient, BaseURL := baseURL, AccessToken := accessToken }

/-- Method `(*Client).NewRequest`.  A nil `body` is `none`. -/
def NewRequest (std : GoStd) (c : Client) (method urlStr : String) (body : Option GoValue) :
    Option Request × Option GoError :=
  match std.urlParse urlStr with
  | .error err => (none, some (.url err))
  | .ok rel =>
    -- Build the request url.
    let rel := { rel with Path := "v" ++ apiVersion ++ "/" ++ rel.Path ++ "/" }
    let u := std.resolveReference c.BaseURL rel
    -- Build the request body.
    let encoded : Except GoError (Option (List Char)) :=
      match body with
      | none => .ok none
      | some v =>
        match jsonEncode std v with
        | .error err => .error err
        | .ok buf => .ok (some buf)
    match encoded with
    | .error err => (none, some err)
    | .ok buf =>
      -- Build the http request.
      match httpNewRequest std method (std.urlString u) buf with
      | .error err => (none, some err)
      | .ok req =>
        -- Set the necessary headers.
        let req := { req with Header := req.Header.Set "Content-Type" "application/json" }
        let req := { req with Header := req.Header.Set "Accept" "application/json" }
        let req := { req with Header := req.Header.Set "Authorization" ("OAuth " ++ c.AccessToken) }
        (some req, none)

/-- How `json.Unmarshal` stores a parsed value in a Go `string`: a JSON string
is stored, `null` changes nothing, anything else is an
`UnmarshalTypeError` and changes nothing. -/
def unmarshalString (j : JSON) (cur : String) : String × Option GoError :=
  match j with
  | .string s => (s, none)
  | .null => (cur, none)
  | .bool _ => (cur, some (.jsonUnmarshalType "bool" "string"))
  | .number _ => (cur, some (.jsonUnmarshalType "number" "string"))
  | .array _ => (cur, some (.jsonUnmarshalType "array" "string"))
  | .object _ => (cur, some (.jsonUnmarshalType "object" "string"))

/-- The folding of a rune that the decoder applies to compare names without
regard to case: ASCII letters in upper case, and the two other runes that
fold to an ASCII letter, U+017F to S and U+212A to K. -/
def foldRune (c : Char) : Char :=
  if c.toNat = 0x17F then 'S' else if c.toNat = 0x212A then 'K' else c.toUpper

/-- Function `foldName` of encoding/json, for comparison with ASCII names. -/
def foldName (s : String) : List Char :=
  s.data.map foldRune

/-- Whether the decoder stores the member named `key` in the struct field
whose JSON name is `name`, for a struct in which no two field names are
equal up to case: an exact match, or else a match up to case. -/
def keyMatches (name key : String) : Bool :=
  key == name || foldName key == foldName name

/-- One member of a JSON object stored in an `APIError`, by the tags of the
struct: `description` goes to `Description`, `error` to `Code`, any other
name is skipped.  The first error is kept. -/
def APIError.storeMember (acc : APIError × Option GoError) (m : String × JSON) :
    APIError × Option GoError :=
  if keyMatches "description" m.1 then
    let r := unmarshalString m.2 acc.1.Description
    ({ acc.1 with Description := r.1 }, acc.2 <|> r.2)
  else if keyMatches "error" m.1 then
    let r := unmarshalString m.2 acc.1.Code
    ({ acc.1 with Code := r.1 }, acc.2 <|> r.2)
  else
    acc

/-- How `json.Unmarshal` fills a `*APIError`: the members of an object are
stored one after the other in the order of the text, `null` changes nothing,
any other value is an `UnmarshalTypeError`. -/
def APIError.unmarshal (j : JSON) (e : APIError) : APIError × Option GoError :=
  match j with
  | .object members => members.foldl APIError.storeMember (e, none)
  | .null => (e, none)
  | .bool _ => (e, some (.jsonUnmarshalType "bool" "yadisk.APIError"))
  | .number _ => (e, some (.jsonUnmarshalType "number" "yadisk.APIError"))
  | .string _ => (e, some (.jsonUnmarshalType "string" "yadisk.APIError"))
  | .array _ => (e, some (.jsonUnmarshalType "array" "yadisk.APIError"))

instance : GoUnmarshal APIError := ⟨APIError.unmarshal⟩

/-- Function `checkResponse`: the error returned, and the response with its
body as the decoder leaves it. -/
def checkResponse (std : GoStd) (r : Response) : Option GoError × Response :=
  if r.StatusCode ≥ 400 then
    let apiErr : APIError := {}
    -- Skipping the json decoding errors.
    let d := jsonDecode std r.Body apiErr
    (some (.api d.1), { r with Body := d.2.1 })
  else
    (none, r)

/-- The destination `v` of `Do`, an `interface{}`. -/
inductive Dest (α : Type) where
  /-- the nil interface -/
  | nil
  /-- a value that implements `io.Writer` -/
  | writer (w : Writer)
  /-- any other value, of a Go type described by `α` -/
  | value (v : α)

/-- What `Do` returns and leaves behind: the two results, the destination
after the call, and the body of the response that was received, if one was,
as it stands when `Do` has returned. -/
structure DoResult (α : Type) where
  resp : Option Response
  err : Option GoError
  v : Dest α
  body : Option Body

/-- The deferred function of `Do`: up to 512 units of the body are read and
discarded, then the body is closed. -/
def drainAndClose (b : Body) : Body :=
  { b with unread := b.unread.drop 512, closed := b.closed + 1 }

/-- The part of `Do` after the response has been received, before the deferred
function runs: whether the response is returned, the error returned, the
destination and the response afterwards. -/
def doReceived (std : GoStd) {α : Type} [GoUnmarshal α] (resp : Response) (v : Dest α) :
    Bool × Option GoError × Dest α × Response :=
  -- Check for the response errors.
  match checkResponse std resp with
  | (some err, resp) => (true, some err, v, resp)
  | (none, resp) =>
    -- Fill the v variable with the response data if it's provided.
    match v with
    | .nil => (true, none, v, resp)
    | .writer w =>
      -- Write to the buffer if io.Writer is provided.
      let r := ioCopy w resp.Body
      match r.2.2 with
      | some err => (false, some err, .writer r.1, { resp with Body := r.2.1 })
      | none => (true, none, .writer r.1, { resp with Body := r.2.1 })
    | .value x =>
      -- Decode JSON to the struct if struct is provided.
      let r := jsonDecode std resp.Body x
      let err := if r.2.2 = some .EOF then none else r.2.2
      (true, err, .value r.1, { resp with Body := r.2.1 })

/-- Method `(*Client).Do`. -/
def Do (std : GoStd) {α : Type} [GoUnmarshal α] (c : Client) (ctx : Ctx) (req : Request)
    (v : Dest α) : DoResult α :=
  -- Make the http request.
  match ctxhttpDo ctx c.HTTPClient req with
  | .error err => { resp := none, err := some err, v := v, body := none }
  | .ok resp =>
    let r := doReceived std resp v
    -- The deferred function runs on the way out.
    let resp := { r.2.2.2 with Body := drainAndClose r.2.2.2.Body }
    { resp := if r.1 then some resp else none, err := r.2.1, v := r.2.2.1, body := some resp.Body }

/-! ## disk.go -/

/-- Struct `SystemFolders`, with the tags `applications` and `downloads`. -/
structure SystemFolders where
  Applications : String := ""
  Downloads : String := ""
deriving DecidableEq, Repr, Inhabited

/-- Struct `Disk`, with the tags `trash_size`, `total_space`, `used_space` and
`system_folders`.  A Go `uint` is a natural number below 2^64. -/
structure Disk where
  TrashSize : Nat := 0
  TotalSpace : Nat := 0
  UsedSpace : Nat := 0
  SystemFolders : SystemFolders := {}
deriving DecidableEq, Repr, Inhabited

/-- Function `strconv.ParseUint(s, 10, 64)` on a JSON number literal: the
value of a literal that is made of digits only and is below 2^64. -/
def parseUint64 (lit : String) : Option Nat :=
  if lit.data ≠ [] && lit.data.all Char.isDigit then
    let n := lit.data.foldl (fun acc c => 10 * acc + (c.toNat - 48)) 0
    if n < 2 ^ 64 then some n else none
  else none

/-- How `json.Unmarshal` stores a parsed value in a Go `uint`: a number whose
literal `strconv.ParseUint` accepts is stored, `null` changes nothing,
anything else is an `UnmarshalTypeError` and changes nothing. -/
def unmarshalUint (j : JSON) (cur : Nat) : Nat × Option GoError :=
  match j with
  | .number lit =>
    match parseUint64 lit with
    | some n => (n, none)
    | none => (cur, some (.jsonUnmarshalType ("number " ++ lit) "uint"))
  | .null => (cur, none)
  | .bool _ => (cur, some (.jsonUnmarshalType "bool" "uint"))
  | .string _ => (cur, some (.jsonUnmarshalType "string" "uint"))
  | .array _ => (cur, some (.jsonUnmarshalType "array" "uint"))
  | .object _ => (cur, some (.jsonUnmarshalType "object" "uint"))

/-- One member of a JSON object stored in a `SystemFolders`, by the tags of the
struct.  The first error is kept. -/
def SystemFolders.storeMember (acc : SystemFolders × Option GoError) (m : String × JSON) :
    SystemFolders × Option GoError :=
  if keyMatches "applications" m.1 then
    let r := unmarshalString m.2 acc.1.Applications
    ({ acc.1 with Applications := r.1 }, acc.2 <|> r.2)
  else if keyMatches "downloads" m.1 then
    let r := unmarshalString m.2 acc.1.Downloads
    ({ acc.1 with Downloads := r.1 }, acc.2 <|> r.2)
  else
    acc

/-- How `json.Unmarshal` fills a `SystemFolders`. -/
def SystemFolders.unmarshal (j : JSON) (x : SystemFolders) : SystemFolders × Option GoError :=
  match j with
  | .object members => members.foldl SystemFolders.storeMember (x, none)
  | .null => (x, none)
  | .bool _ => (x, some (.jsonUnmarshalType "bool" "yadisk.SystemFolders"))
  | .number _ => (x, some (.jsonUnmarshalType "number" "yadisk.SystemFolders"))
  | .string _ => (x, some (.jsonUnmarshalType "string" "yadisk.SystemFolders"))
  | .array _ => (x, some (.jsonUnmarshalType "array" "yadisk.SystemFolders"))

/-- One member of a JSON object stored in a `Disk`, by the tags of the struct.
The first error is kept. -/
def Disk.storeMember (acc : Disk × Option GoError) (m : String × JSON) :
    Disk × Option GoError :=
  if keyMatches "trash_size" m.1 then
    let r := unmarshalUint m.2 acc.1.TrashSize
    ({ acc.1 with TrashSize := r.1 }, acc.2 <|> r.2)
  else if keyMatches "total_space" m.1 then
    let r := unmarshalUint m.2 acc.1.TotalSpace
    ({ acc.1 with TotalSpace := r.1 }, acc.2 <|> r.2)
  else if keyMatches "used_space" m.1 then
    let r := unmarshalUint m.2 acc.1.UsedSpace
    ({ acc.1 with UsedSpace := r.1 }, acc.2 <|> r.2)
  else if keyMatches "system_folders" m.1 then
    let r := SystemFolders.unmarshal m.2 acc.1.SystemFolders
    ({ acc.1 with SystemFolders := r.1 }, acc.2 <|> r.2)
  else
    acc

/-- How `json.Unmarshal` fills a `*Disk`. -/
def Disk.unmarshal (j : JSON) (d : Disk) : Disk × Option GoError :=
  match j with
  | .object members => members.foldl Disk.storeMember (d, none)
  | .null => (d, none)
  | .bool _ => (d, some (.jsonUnmarshalType "bool" "yadisk.Disk"))
  | .number _ => (d, some (.jsonUnmarshalType "number" "yadisk.Disk"))
  | .string _ => (d, some (.jsonUnmarshalType "string" "yadisk.Disk"))
  | .array _ => (d, some (.jsonUnmarshalType "array" "yadisk.Disk"))

instance : GoUnmarshal Disk := ⟨Disk.unmarshal⟩

/-- The value that a destination holds, `dflt` when it is not a decode
destination. -/
def Dest.held {α : Type} (d : Dest α) (dflt : α) : α :=
  match d with
  | .value x => x
  | _ => dflt

/-- Method `(*DiskService).Get`, for the service of `client`: the disk, the
response and the error. -/
def DiskService.Get (std : GoStd) (client : Client) (ctx : Ctx) :
    Option Disk × Option Response × Option GoError :=
  let url := "disk"
  match NewRequest std client "GET" url none with
  | (_, some err) => (none, none, some err)
  -- Not reached: `NewRequest` returns a request whenever it returns no error.
  | (none, none) => (none, none, none)
  | (some req, none) =>
    let disk : Disk := {}
    let r := Do std client ctx req (Dest.value disk)
    match r.err with
    | some err => (none, r.resp, some err)
    | none => (some (r.v.held disk), r.resp, none)

/-! ## resources.go -/

mutual
/-- Struct `Resource`; a `time.Time` is kept as its text, and the field `Type`
is written `Type_`. -/
inductive Resource where
  | mk (PublicKey : String) (Embedded : ResourceList) (Name : String) (Created : String)
      (CustomProperties : List (String × String)) (PublicURL : String) (OriginPath : String)
      (Modified : String) (Path : String) (MD5 : String) (Type_ : String) (MimeType : String)
      (Size : Nat)
/-- Struct `ResourceList`; the field `Sort` is written `Sort_`. -/
inductive ResourceList where
  | mk (Sort_ : String) (PublicKey : String) (Items : List Resource) (Path : String)
      (Limit : Nat) (Offset : Nat) (Total : Nat)
end

/-- Struct `ResourcesOptions`; the field `Sort` is written `Sort_`. -/
structure ResourcesOptions where
  Sort_ : String := ""
  Limit : Nat := 0
  Offset : Nat := 0
  Fields : List String := []
  PreviewSize : String := ""
  PreviewCrop : Bool := false
deriving DecidableEq, Repr, Inhabited

/-- Method `(*ResourcesService).Get`, for the service of `client`: the body of
the method is `return nil, nil, nil`. -/
def ResourcesService.Get (_client : Client) (_ctx : Ctx) (_path : String)
    (_opt : Option ResourcesOptions) :
    Option (List ResourceList) × Option Response × Option GoError :=
  (none, none, none)

/-! ## An executable model of the standard library

The functions below follow the Go sources of `net/url` and `encoding/json`
for ASCII text.  Not modelled: validation and decoding of the userinfo of an
authority, IPv6 literals and zones in a host, the nesting limit of the JSON
scanner.  A unit above U+007F is escaped in a URL as the UTF-8 bytes of its
code point, and an escape `%XX` with `XX` above 7F is read as the unit with
that code. -/

namespace Model

/-- Function `strings.Cut` for a one-byte separator: the text before the first
separator, the text after it, and whether there was one. -/
def cut (sep : Char) : List Char → List Char × List Char × Bool
  | [] => ([], [], false)
  | c :: cs =>
    if c == sep then ([], cs, true)
    else
      let r := cut sep cs
      (c :: r.1, r.2.1, r.2.2)

/-- Function `strings.Split` for a one-byte separator. -/
def split (sep : Char) : List Char → List (List Char)
  | [] => [[]]
  | c :: cs =>
    match split sep cs with
    | [] => [[c]]
    | seg :: segs => if c == sep then [] :: seg :: segs else (c :: seg) :: segs

/-- The text up to and including the last `sep`, empty when there is none:
`s[:strings.LastIndex(s, sep)+1]`. -/
def throughLast (sep : Char) (s : List Char) : List Char :=
  (s.reverse.dropWhile (fun c => c != sep)).reverse

/-- The text before the last `sep`, when there is one:
`s[:strings.LastIndex(s, sep)]`. -/
def beforeLast (sep : Char) (s : List Char) : Option (List Char) :=
  if s.contains sep then some ((s.reverse.dropWhile (fun c => c != sep)).drop 1).reverse
  else none

/-- The text after the last `sep`, when there is one. -/
def afterLast (sep : Char) (s : List Char) : Option (List Char) :=
  if s.contains sep then some (s.reverse.takeWhile (fun c => c != sep)).reverse
  else none

/-- The parts of a URL that are escaped differently. -/
inductive Encoding where
  | path
  | host
  | fragment
deriving DecidableEq, Repr

/-- Function `shouldEscape` of net/url. -/
def shouldEscape (c : Char) (mode : Encoding) : Bool :=
  if c.isAlphanum then false
  else if mode == .host && "!$&'()*+,;=:[]<>\"".data.contains c then false
  else if "-_.~".data.contains c then false
  else if "$&+,/:;=?@".data.contains c then
    match mode with
    | .path => c == '?'
    | .fragment => false
    | .host => true
  else if mode == .fragment && "!()*".data.contains c then false
  else true

/-- Whether a byte is a hexadecimal digit. -/
def ishex (c : Char) : Bool :=
  c.isDigit || ('a' ≤ c && c ≤ 'f') || ('A' ≤ c && c ≤ 'F')

/-- The value of a hexadecimal digit. -/
def unhex (c : Char) : Nat :=
  if c.isDigit then c.toNat - 48
  else if 'a' ≤ c && c ≤ 'f' then c.toNat - 97 + 10
  else if 'A' ≤ c && c ≤ 'F' then c.toNat - 65 + 10
  else 0

/-- The hexadecimal digit of a value below 16, in upper case. -/
def upperhex (n : Nat) : Char :=
  "0123456789ABCDEF".data.getD n '0'

/-- The hexadecimal digit of a value below 16, in lower case. -/
def lowerhex (n : Nat) : Char :=
  "0123456789abcdef".data.getD n '0'

/-- The UTF-8 bytes of a code point. -/
def utf8Bytes (c : Char) : List Nat :=
  let n := c.toNat
  if n < 0x80 then [n]
  else if n < 0x800 then [0xC0 + n / 64, 0x80 + n % 64]
  else if n < 0x10000 then [0xE0 + n / 4096, 0x80 + n / 64 % 64, 0x80 + n % 64]
  else [0xF0 + n / 262144, 0x80 + n / 4096 % 64, 0x80 + n / 64 % 64, 0x80 + n % 64]

/-- Function `escape` of net/url, for the three modes above: a unit that
should be escaped is written as `%XX` for each of its bytes. -/
def escape (s : List Char) (mode : Encoding) : List Char :=
  s.flatMap fun c =>
    if shouldEscape c mode then
      (utf8Bytes c).flatMap fun b => ['%', upperhex (b / 16), upperhex (b % 16)]
    else [c]

/-- Function `unescape` of net/url, for a path or a fragment. -/
def unescape : List Char → Except String (List Char)
  | [] => .ok []
  | '%' :: a :: b :: rest =>
    if ishex a && ishex b then
      match unescape rest with
      | .ok t => .ok (Char.ofNat (16 * unhex a + unhex b) :: t)
      | .error e => .error e
    else .error "invalid URL escape"
  | '%' :: _ => .error "invalid URL escape"
  | c :: rest =>
    match unescape rest with
    | .ok t => .ok (c :: t)
    | .error e => .error e

/-- Function `unescape` of net/url, for a host: an ASCII byte may not be
escaped, except the percent sign, and a byte that would need escaping may not
occur. -/
def unescapeHost : List Char → Except String (List Char)
  | [] => .ok []
  | '%' :: a :: b :: rest =>
    if ishex a && ishex b then
      if unhex a < 8 && !(a == '2' && b == '5') then .error "invalid URL escape"
      else
        match unescapeHost rest with
        | .ok t => .ok (Char.ofNat (16 * unhex a + unhex b) :: t)
        | .error e => .error e
    else .error "invalid URL escape"
  | '%' :: _ => .error "invalid URL escape"
  | c :: rest =>
    if c.toNat < 0x80 && shouldEscape c .host then .error "invalid character in host name"
    else
      match unescapeHost rest with
      | .ok t => .ok (c :: t)
      | .error e => .error e

/-- Function `validEncoded` of net/url. -/
def validEncoded (s : List Char) (mode : Encoding) : Bool :=
  s.all fun c => "!$&'()*+,;=:@[]%".data.contains c || !shouldEscape c mode

/-- Whether `raw` unescapes, and to `text`. -/
def unescapesTo (raw text : List Char) : Bool :=
  match unescape raw with
  | .ok t => t == text
  | .error _ => false

/-- Method `(*URL).EscapedPath`. -/
def EscapedPath (u : URL) : List Char :=
  if u.RawPath ≠ "" && validEncoded u.RawPath.data .path
      && unescapesTo u.RawPath.data u.Path.data then
    u.RawPath.data
  else if u.Path = "*" then
    ['*']
  else
    escape u.Path.data .path

/-- Method `(*URL).EscapedFragment`. -/
def EscapedFragment (u : URL) : List Char :=
  if u.RawFragment ≠ "" && validEncoded u.RawFragment.data .fragment
      && unescapesTo u.RawFragment.data u.Fragment.data then
    u.RawFragment.data
  else
    escape u.Fragment.data .fragment

/-- Method `(*URL).setPath`: `Path` is the unescaped text, and `RawPath` is
set only when the text is not the default escaping of `Path`. -/
def setPath (u : URL) (p : List Char) : Except String URL :=
  match unescape p with
  | .error e => .error e
  | .ok path =>
    .ok { u with Path := String.mk path,
                 RawPath := if escape path .path = p then "" else String.mk p }

/-- Method `(*URL).setFragment`. -/
def setFragment (u : URL) (f : List Char) : Except String URL :=
  match unescape f with
  | .error e => .error e
  | .ok frag =>
    .ok { u with Fragment := String.mk frag,
                 RawFragment := if escape frag .fragment = f then "" else String.mk f }

/-- The loop of function `getScheme` of net/url at index `i`: the scheme and
the text after its colon, with an empty scheme when the text has none. -/
def getSchemeLoop (rawURL : List Char) : Nat → List Char → Except String (List Char × List Char)
  | _, [] => .ok ([], rawURL)
  | i, c :: cs =>
    if c.isAlpha then getSchemeLoop rawURL (i + 1) cs
    else if c.isDigit || c == '+' || c == '-' || c == '.' then
      if i = 0 then .ok ([], rawURL) else getSchemeLoop rawURL (i + 1) cs
    else if c == ':' then
      if i = 0 then .error "missing protocol scheme" else .ok (rawURL.take i, cs)
    else .ok ([], rawURL)

/-- Function `getScheme` of net/url. -/
def getScheme (rawURL : List Char) : Except String (List Char × List Char) :=
  getSchemeLoop rawURL 0 rawURL

/-- Function `validOptionalPort` of net/url: empty, or a colon and digits. -/
def validOptionalPort : List Char → Bool
  | [] => true
  | c :: cs => c == ':' && cs.all Char.isDigit

/-- Function `parseHost` of net/url, without IPv6 literals. -/
def parseHost (host : List Char) : Except String (List Char) :=
  match afterLast ':' host with
  | some port =>
    if validOptionalPort (':' :: port) then unescapeHost host
    else .error "invalid port after host"
  | none => unescapeHost host

/-- Function `parseAuthority` of net/url; the userinfo is kept as written. -/
def parseAuthority (authority : List Char) : Except String (Option String × List Char) :=
  match beforeLast '@' authority, afterLast '@' authority with
  | some userinfo, some host =>
    match parseHost host with
    | .ok h => .ok (some (String.mk userinfo), h)
    | .error e => .error e
  | _, _ =>
    match parseHost authority with
    | .ok h => .ok (none, h)
    | .error e => .error e

/-- Function `parse` of net/url with `viaRequest` false. -/
def parse (rawURL : List Char) : Except String URL :=
  if rawURL.any (fun c => c.toNat < 0x20 || c.toNat = 0x7f) then
    .error "net/url: invalid control character in URL"
  else if rawURL = ['*'] then
    .ok { Path := "*" }
  else
    -- Split off possible leading "http:", "mailto:", etc.
    match getScheme rawURL with
    | .error e => .error e
    | .ok (scheme, rest) =>
      let url : URL := { Scheme := String.mk (scheme.map Char.toLower) }
      let q : List Char × URL :=
        if rest.getLast? = some '?' && rest.count '?' = 1 then
          (rest.dropLast, { url with ForceQuery := true })
        else
          let r := cut '?' rest
          (r.1, { url with RawQuery := String.mk r.2.1 })
      let rest := q.1
      let url := q.2
      if rest.head? ≠ some '/' && url.Scheme ≠ "" then
        -- We consider rootless paths per RFC 3986 as opaque.
        .ok { url with Opaque := String.mk rest }
      else if rest.head? ≠ some '/' && (cut '/' rest).1.contains ':' then
        -- First path segment has colon. Not allowed in relative URL.
        .error "first path segment in URL cannot contain colon"
      else if (url.Scheme ≠ "" || !(['/', '/', '/'].isPrefixOf rest)) && ['/', '/'].isPrefixOf rest then
        let r := cut '/' (rest.drop 2)
        let authority := r.1
        let rest := if r.2.2 then '/' :: r.2.1 else []
        match parseAuthority authority with
        | .error e => .error e
        | .ok (user, host) => setPath { url with User := user, Host := String.mk host } rest
      else if url.Scheme ≠ "" && ['/'].isPrefixOf rest then
        setPath { url with OmitHost := true } rest
      else
        setPath url rest

/-- Function `url.Parse`. -/
def urlParse (rawURL : String) : Except UrlError URL :=
  -- Cut off #frag
  let r := cut '#' rawURL.data
  match parse r.1 with
  | .error e => .error { Op := "parse", URL := String.mk r.1, Err := e }
  | .ok url =>
    if r.2.1 = [] then .ok url
    else
      match setFragment url r.2.1 with
      | .error e => .error { Op := "parse", URL := rawURL, Err := e }
      | .ok url => .ok url

/-- One round of the loop of function `resolvePath` of net/url: the text written
after the leading slash, and the flag `first`. -/
def resolveStep (st : List Char × Bool) (elem : List Char) : List Char × Bool :=
  if elem = ['.'] then
    (st.1, false)
  else if elem = ['.', '.'] then
    match beforeLast '/' st.1 with
    | none => ([], true)
    | some kept => (kept, st.2)
  else
    ((if st.2 then st.1 else st.1 ++ ['/']) ++ elem, false)

/-- Function `resolvePath` of net/url. -/
def resolvePath (base ref : List Char) : List Char :=
  let full :=
    match ref with
    | [] => base
    | c :: _ => if c != '/' then throughLast '/' base ++ ref else ref
  if full = [] then []
  else
    let elems := split '/' full
    let st := elems.foldl resolveStep ([], true)
    let last := elems.getLast?.getD []
    let dst := if last = ['.'] || last = ['.', '.'] then st.1 ++ ['/'] else st.1
    -- We wrote an initial '/', but we don't want two.
    match dst with
    | '/' :: _ => dst
    | _ => '/' :: dst

/-- Method `(*URL).ResolveReference`, receiver first. -/
def resolveReference (u ref : URL) : URL :=
  let url := ref
  let url := if ref.Scheme = "" then { url with Scheme := u.Scheme } else url
  if ref.Scheme ≠ "" || ref.Host ≠ "" || ref.User.isSome then
    -- The "absoluteURI" or "net_path" cases.
    match setPath url (resolvePath (EscapedPath ref) []) with
    | .ok r => r
    | .error _ => url
  else if ref.Opaque ≠ "" then
    { url with User := none, Host := "", Path := "" }
  else
    let url :=
      if ref.Path = "" && !ref.ForceQuery && ref.RawQuery = "" then
        let url := { url with RawQuery := u.RawQuery }
        if ref.Fragment = "" then
          { url with Fragment := u.Fragment, RawFragment := u.RawFragment }
        else url
      else url
    if ref.Path = "" && u.Opaque ≠ "" then
      { url with Opaque := u.Opaque, User := none, Host := "", Path := "" }
    else
      -- The "abs_path" or "rel_path" cases.
      let url := { url with Host := u.Host, User := u.User }
      match setPath url (resolvePath (EscapedPath u) (EscapedPath ref)) with
      | .ok r => r
      | .error _ => url

/-- Method `(*URL).String`. -/
def urlString (u : URL) : String :=
  let scheme := if u.Scheme ≠ "" then u.Scheme.data ++ [':'] else []
  let body :=
    if u.Opaque ≠ "" then
      scheme ++ u.Opaque.data
    else
      let authority :=
        if u.Scheme ≠ "" || u.Host ≠ "" || u.User.isSome then
          if u.OmitHost && u.Host = "" && u.User.isNone then []
          else
            (if u.Host ≠ "" || u.Path ≠ "" || u.User.isSome then ['/', '/'] else [])
            ++ (match u.User with
                | some ui => ui.data ++ ['@']
                | none => [])
            ++ (if u.Host ≠ "" then escape u.Host.data .host else [])
        else []
      let path := EscapedPath u
      let buf := scheme ++ authority
      let buf := if path ≠ [] && path.head? ≠ some '/' && u.Host ≠ "" then buf ++ ['/'] else buf
      let buf := if buf = [] && (cut '/' path).1.contains ':' then ['.', '/'] else buf
      buf ++ path
  let query := if u.ForceQuery || u.RawQuery ≠ "" then '?' :: u.RawQuery.data else []
  let fragment := if u.Fragment ≠ "" then '#' :: EscapedFragment u else []
  String.mk (body ++ query ++ fragment)

/-- A JSON string literal as `json.Marshal` writes it, with the escaping of
HTML characters that is on by default: the short escapes for the quote, the
backslash, newline, carriage return and tab, `\u00XX` for the other control
characters and for `<`, `>`, `&`, and the same for U+2028 and U+2029. -/
def quoteString (s : String) : List Char :=
  let body := s.data.flatMap fun c =>
    if c == '"' then ['\\', '"']
    else if c == '\\' then ['\\', '\\']
    else if c == '\n' then ['\\', 'n']
    else if c == '\r' then ['\\', 'r']
    else if c == '\t' then ['\\', 't']
    else if c.toNat < 0x20 || c == '<' || c == '>' || c == '&' then
      ['\\', 'u', '0', '0', lowerhex (c.toNat / 16), lowerhex (c.toNat % 16)]
    else if c.toNat = 0x2028 then ['\\', 'u', '2', '0', '2', '8']
    else if c.toNat = 0x2029 then ['\\', 'u', '2', '0', '2', '9']
    else [c]
  '"' :: body ++ ['"']

mutual
/-- Function `json.Marshal`. -/
def jsonMarshal : GoValue → Except GoError (List Char)
  | .string s => .ok (quoteString s)
  | .uint n => .ok (toString n).data
  | .bool b => .ok (if b then "true".data else "false".data)
  | .nil => .ok "null".data
  | .struct fields =>
    match marshalMembers fields with
    | .ok t => .ok ('{' :: t ++ ['}'])
    | .error e => .error e
  | .slice elems =>
    match marshalElems elems with
    | .ok t => .ok ('[' :: t ++ [']'])
    | .error e => .error e
  | .stringMap entries =>
    match marshalMembers entries with
    | .ok t => .ok ('{' :: t ++ ['}'])
    | .error e => .error e
  | .ifaceMap _ => .error (.jsonUnsupportedType "map[interface {}]interface {}")
/-- The members of an object, separated by commas. -/
def marshalMembers : List (String × GoValue) → Except GoError (List Char)
  | [] => .ok []
  | (name, v) :: rest =>
    match jsonMarshal v with
    | .error e => .error e
    | .ok t =>
      match marshalMembers rest with
      | .error e => .error e
      | .ok r => .ok (quoteString name ++ ':' :: t ++ (if rest.isEmpty then [] else [',']) ++ r)
/-- The elements of an array, separated by commas. -/
def marshalElems : List GoValue → Except GoError (List Char)
  | [] => .ok []
  | v :: rest =>
    match jsonMarshal v with
    | .error e => .error e
    | .ok t =>
      match marshalElems rest with
      | .error e => .error e
      | .ok r => .ok (t ++ (if rest.isEmpty then [] else [',']) ++ r)
end

/-- The outcome of scanning one piece of a JSON text. -/
inductive Scanned (α : Type) where
  /-- the piece, and the input after it -/
  | ok (a : α) (rest : List Char)
  /-- the input ends inside the piece -/
  | more
  /-- a syntax error, and the input after the offending unit -/
  | bad (msg : String) (rest : List Char)
deriving Repr

/-- Input without its leading white space. -/
def skipSpace (cs : List Char) : List Char :=
  cs.dropWhile isSpace

/-- The rest of a literal `true`, `false` or `null` after its first letter. -/
def scanLiteral (expect : List Char) (j : JSON) : List Char → Scanned JSON :=
  fun cs =>
    match expect, cs with
    | [], rest => .ok j rest
    | _ :: _, [] => .more
    | e :: es, c :: rest =>
      if c == e then scanLiteral es j rest else .bad "invalid character in literal" rest

/-- Digits at the start of the input, and the input after them. -/
def spanDigits (cs : List Char) : List Char × List Char :=
  (cs.takeWhile Char.isDigit, cs.dropWhile Char.isDigit)

/-- The exponent of a number after its `e`: an optional sign and at least one
digit. -/
def scanExponent (lit : List Char) (cs : List Char) : Scanned JSON :=
  let signed : List Char × List Char :=
    match cs with
    | '+' :: r => (lit ++ ['+'], r)
    | '-' :: r => (lit ++ ['-'], r)
    | _ => (lit, cs)
  let d := spanDigits signed.2
  match d.1, d.2 with
  | [], [] => .more
  | [], _ :: r => .bad "invalid character in exponent of numeric literal" r
  | ds, rest => .ok (.number (String.mk (signed.1 ++ ds))) rest

/-- The fraction and the exponent of a number after its integer part. -/
def scanFraction (lit : List Char) (cs : List Char) : Scanned JSON :=
  match cs with
  | '.' :: r =>
    let d := spanDigits r
    match d.1, d.2 with
    | [], [] => .more
    | [], _ :: r2 => .bad "invalid character after decimal point in numeric literal" r2
    | ds, 'e' :: r2 => scanExponent (lit ++ '.' :: ds ++ ['e']) r2
    | ds, 'E' :: r2 => scanExponent (lit ++ '.' :: ds ++ ['E']) r2
    | ds, rest => .ok (.number (String.mk (lit ++ '.' :: ds))) rest
  | 'e' :: r => scanExponent (lit ++ ['e']) r
  | 'E' :: r => scanExponent (lit ++ ['E']) r
  | rest => .ok (.number (String.mk lit)) rest

/-- The integer part of a number after an optional minus sign: a zero, or a
digit from 1 to 9 and more digits. -/
def scanInteger (sign : List Char) (cs : List Char) : Scanned JSON :=
  match cs with
  | [] => .more
  | '0' :: r => scanFraction (sign ++ ['0']) r
  | c :: r =>
    if c.isDigit then
      let d := spanDigits r
      scanFraction (sign ++ c :: d.1) d.2
    else .bad "invalid character in numeric literal" r

/-- Four hexadecimal digits, as a number. -/
def scanHex4 : List Char → Scanned Nat
  | a :: b :: c :: d :: rest =>
    if !ishex a then .bad "invalid character in \\u hexadecimal character escape" (b :: c :: d :: rest)
    else if !ishex b then .bad "invalid character in \\u hexadecimal character escape" (c :: d :: rest)
    else if !ishex c then .bad "invalid character in \\u hexadecimal character escape" (d :: rest)
    else if !ishex d then .bad "invalid character in \\u hexadecimal character escape" rest
    else .ok (4096 * unhex a + 256 * unhex b + 16 * unhex c + unhex d) rest
  | a :: b :: c :: [] =>
    if !ishex a then .bad "invalid character in \\u hexadecimal character escape" [b, c]
    else if !ishex b then .bad "invalid character in \\u hexadecimal character escape" [c]
    else if !ishex c then .bad "invalid character in \\u hexadecimal character escape" []
    else .more
  | a :: b :: [] =>
    if !ishex a then .bad "invalid character in \\u hexadecimal character escape" [b]
    else if !ishex b then .bad "invalid character in \\u hexadecimal character escape" []
    else .more
  | a :: [] =>
    if !ishex a then .bad "invalid character in \\u hexadecimal character escape" [] else .more
  | [] => .more

/-- The low half of a surrogate pair written as `\uXXXX` at the start of the
input, and the input after it. -/
def lowSurrogate : List Char → Option (Nat × List Char)
  | '\\' :: 'u' :: a :: b :: c :: d :: rest =>
    let n := 4096 * unhex a + 256 * unhex b + 16 * unhex c + unhex d
    if ishex a && ishex b && ishex c && ishex d && 0xDC00 ≤ n && n < 0xE000 then some (n, rest)
    else none
  | _ => none

/-- The character of a one-letter escape. -/
def simpleEscape (c : Char) : Option Char :=
  if c == '"' then some '"'
  else if c == '\\' then some '\\'
  else if c == '/' then some '/'
  else if c == 'b' then some (Char.ofNat 8)
  else if c == 'f' then some (Char.ofNat 12)
  else if c == 'n' then some '\n'
  else if c == 'r' then some '\r'
  else if c == 't' then some '\t'
  else none

/-- A string after its opening quote: the text without the escapes.  A
surrogate that is not part of a pair becomes U+FFFD.  The first argument
bounds the number of rounds, `acc` is the text so far, reversed. -/
def scanString : Nat → List Char → List Char → Scanned String
  | 0, _, _ => .more
  | fuel + 1, acc, cs =>
    match cs with
    | [] => .more
    | '"' :: rest => .ok (String.mk acc.reverse) rest
    | '\\' :: [] => .more
    | '\\' :: 'u' :: r =>
      match scanHex4 r with
      | .more => .more
      | .bad msg rest => .bad msg rest
      | .ok n rest =>
        if 0xD800 ≤ n && n < 0xE000 then
          match (if n < 0xDC00 then lowSurrogate rest else none) with
          | some (lo, rest2) =>
            scanString fuel (Char.ofNat ((n - 0xD800) * 1024 + (lo - 0xDC00) + 0x10000) :: acc) rest2
          | none => scanString fuel (Char.ofNat 0xFFFD :: acc) rest
        else scanString fuel (Char.ofNat n :: acc) rest
    | '\\' :: e :: r =>
      match simpleEscape e with
      | some c => scanString fuel (c :: acc) r
      | none => .bad "invalid character in string escape code" r
    | c :: rest =>
      if c.toNat < 0x20 then .bad "invalid character in string literal" rest
      else scanString fuel (c :: acc) rest

mutual
/-- A value at the start of the input, after optional white space.  The
first argument bounds the depth of the recursion by the length of the input. -/
def scanValue : Nat → List Char → Scanned JSON
  | 0, _ => .more
  | fuel + 1, cs =>
    match skipSpace cs with
    | [] => .more
    | '{' :: r =>
      match skipSpace r with
      | [] => .more
      | '}' :: rest => .ok (.object []) rest
      | '"' :: r2 => scanMembers fuel [] r2
      | _ :: rest => .bad "invalid character looking for beginning of object key string" rest
    | '[' :: r =>
      match skipSpace r with
      | [] => .more
      | ']' :: rest => .ok (.array []) rest
      | c :: r2 => scanElems fuel [] (c :: r2)
    | '"' :: r =>
      match scanString (r.length + 1) [] r with
      | .ok s rest => .ok (.string s) rest
      | .more => .more
      | .bad msg rest => .bad msg rest
    | '-' :: r => scanInteger ['-'] r
    | 't' :: r => scanLiteral ['r', 'u', 'e'] (.bool true) r
    | 'f' :: r => scanLiteral ['a', 'l', 's', 'e'] (.bool false) r
    | 'n' :: r => scanLiteral ['u', 'l', 'l'] .null r
    | c :: r =>
      if c.isDigit then scanInteger [] (c :: r)
      else .bad "invalid character looking for beginning of value" r
/-- The members of an object from the first unit of a key, after its opening
quote; `acc` holds the members so far, reversed. -/
def scanMembers : Nat → List (String × JSON) → List Char → Scanned JSON
  | 0, _, _ => .more
  | fuel + 1, acc, cs =>
    match scanString (cs.length + 1) [] cs with
    | .more => .more
    | .bad msg rest => .bad msg rest
    | .ok key r =>
      match skipSpace r with
      | [] => .more
      | ':' :: r2 =>
        match scanValue fuel r2 with
        | .more => .more
        | .bad msg rest => .bad msg rest
        | .ok v r3 =>
          match skipSpace r3 with
          | [] => .more
          | '}' :: rest => .ok (.object ((key, v) :: acc).reverse) rest
          | ',' :: r4 =>
            match skipSpace r4 with
            | [] => .more
            | '"' :: r5 => scanMembers fuel ((key, v) :: acc) r5
            | _ :: rest => .bad "invalid character looking for beginning of object key string" rest
          | _ :: rest => .bad "invalid character after object key:value pair" rest
      | _ :: rest => .bad "invalid character after object key" rest
/-- The elements of an array from the start of an element; `acc` holds the
elements so far, reversed. -/
def scanElems : Nat → List JSON → List Char → Scanned JSON
  | 0, _, _ => .more
  | fuel + 1, acc, cs =>
    match scanValue fuel cs with
    | .more => .more
    | .bad msg rest => .bad msg rest
    | .ok v r =>
      match skipSpace r with
      | [] => .more
      | ']' :: rest => .ok (.array (v :: acc).reverse) rest
      | ',' :: r2 => scanElems fuel (v :: acc) r2
      | _ :: rest => .bad "invalid character after array element" rest
end

/-- The scanner of `json.Decoder` on the whole input. -/
def jsonScan (cs : List Char) : ScanResult :=
  match scanValue (cs.length + 1) cs with
  | .ok j rest => .value j (cs.length - rest.length)
  | .more => .incomplete
  | .bad msg rest => .syntaxError msg (cs.length - rest.length)

/-- A default client without a network: no server can be reached. -/
def DefaultClient : HTTPClient :=
  fun _ _ => .error (.other "dial tcp: connect: network is unreachable")

end Model

/-- The executable model of the standard library. -/
def goStd : GoStd where
  urlParse := Model.urlParse
  resolveReference := Model.resolveReference
  urlString := Model.urlString
  jsonMarshal := Model.jsonMarshal
  jsonScan := Model.jsonScan
  DefaultClient := Model.DefaultClient

/-! ## Named pieces of `NewRequest` and values used in examples -/

/-- The URL that `NewRequest` builds from the parsed `rel` (lines 68-69). -/
def requestTarget (std : GoStd) (c : Client) (rel : URL) : URL :=
  std.resolveReference c.BaseURL { rel with Path := "v1/" ++ rel.Path ++ "/" }

/-- The payload that `NewRequest` builds from `body` (lines 72-79). -/
def requestPayload (std : GoStd) : Option GoValue → Except GoError (Option (List Char))
  | none => .ok none
  | some v =>
    match std.jsonMarshal v with
    | .error e => .error e
    | .ok text => .ok (some (text ++ ['\n']))

/-- The three headers that `NewRequest` sets (lines 88-90). -/
def withHeaders (c : Client) (req : Request) : Request :=
  { req with Header := ((req.Header.Set "Content-Type" "application/json").Set "Accept"
      "application/json").Set "Authorization" ("OAuth " ++ c.AccessToken) }

/-- Units of a path that stand for themselves in a URL: ASCII letters and
digits, the hyphen, the underscore, the full stop, the tilde and the slash. -/
def isPlainPathChar (c : Char) : Bool :=
  c.isAlphanum || c == '-' || c == '_' || c == '.' || c == '~' || c == '/'

/-- A client whose transport always delivers a response with the given status
and body, as the test server of the unit tests does. -/
def serve (status : Int) (body : String) : HTTPClient :=
  fun _ _ => .ok { StatusCode := status, Body := { unread := body.data } }

/-- The client of the unit tests: `NewClient` with the transport replaced. -/
def testClient (server : HTTPClient) : Client :=
  { NewClient goStd "ACCESS_TOKEN" with HTTPClient := server }

/-- A request as the unit tests pass to `Do`; the test server does not look at it. -/
def testRequest : Request :=
  { Method := "GET", URL := { Path := "/" } }

/-- The body `&User{Login: "sosisa"}` of `TestNewRequest`, where `Login` has the
tag `json:"login"`. -/
def userBody : GoValue :=
  .struct [("login", .string "sosisa")]

/-- The body `&User{}` of `TestNewRequest_invalid_json`, where `User` has the one
field `Data map[interface{}]interface{}`. -/
def invalidBody : GoValue :=
  .struct [("Data", .ifaceMap [])]

/-- The struct `foo` of `TestDo_with_struct`, with the one field `A string`. -/
structure Foo where
  A : String := ""
deriving DecidableEq, Repr, Inhabited

/-- How `json.Unmarshal` fills a `*foo`. -/
def Foo.unmarshal (j : JSON) (x : Foo) : Foo × Option GoError :=
  match j with
  | .object members =>
    members.foldl (fun acc m =>
      if keyMatches "A" m.1 then
        let r := unmarshalString m.2 acc.1.A
        ({ A := r.1 }, acc.2 <|> r.2)
      else acc) (x, none)
  | .null => (x, none)
  | .bool _ => (x, some (.jsonUnmarshalType "bool" "unit.foo"))
  | .number _ => (x, some (.jsonUnmarshalType "number" "unit.foo"))
  | .string _ => (x, some (.jsonUnmarshalType "string" "unit.foo"))
  | .array _ => (x, some (.jsonUnmarshalType "array" "unit.foo"))

instance : GoUnmarshal Foo := ⟨Foo.unmarshal⟩

/-- The error body of `TestDo_http_error_json`, without its white space. -/
def conflictBody : String :=
  "\x7b\"description\":\"resource already exists\",\"error\":\"PlatformResourceAlreadyExists\"\x7d"

/-- An error body with two members whose names differ only in the case of a
letter. -/
def caseVariantBody : String :=
  "\x7b\"error\":\"NotFound\",\"Error\":\"Other\",\"description\":\"d\"\x7d"

/-- The body that the test server of `TestDo` sends. -/
def fooBody : String :=
  "\x7b\"A\":\"a\"\x7d"

/-- An empty `bytes.Buffer` as a writer: it accepts everything. -/
def bytesBuffer : Writer :=
  { written := [], accept := fun _ p => (p.length, none) }

/-- The body that the test server of `TestDisk_Get` sends. -/
def diskBody : String :=
  "\n            \x7b\n                \"trash_size\": 4631577437,\n                \"total_space\": 319975063552,\n                \"used_space\": 26157681270,\n                \"system_folders\":\n                \x7b\n                    \"applications\": \"disk:/Applications\",\n                    \"downloads\": \"disk:/Downloads/\"\n                \x7d\n            \x7d\n            "

/-- A writer whose `Write` accepts nothing and fails. -/
def failingWriter : Writer :=
  { written := [], accept := fun _ _ => (0, some (.other "write failed")) }

/-- The value `context.Canceled`. -/
def canceled : GoError :=
  .other "context canceled"

/-- A client whose transport delivers the head of a response with the given
status; the body delivers `data` and then fails with `failure`, as it does
when the request is cancelled while the body is on its way. -/
def serveInterrupted (status : Int) (data : String) (failure : GoError) : HTTPClient :=
  fun _ _ => .ok { StatusCode := status, Body := { unread := data.data, failure := some failure } }

/-- A client whose transport fails with `err`. -/
def failWith (err : GoError) : HTTPClient :=
  fun _ _ => .error err

/-! ## Lemmas on `NewRequest` -/

theorem NewRequest_eq (std : GoStd) (c : Client) (method urlStr : String) (body : Option GoValue) :
    NewRequest std c method urlStr body =
      match std.urlParse urlStr with
      | .error err => (none, some (.url err))
      | .ok rel =>
        match requestPayload std body with
        | .error err => (none, some err)
        | .ok buf =>
          match httpNewRequest std method (std.urlString (requestTarget std c rel)) buf with
          | .error err => (none, some err)
          | .ok req => (some (withHeaders c req), none) := by
  unfold NewRequest
  cases std.urlParse urlStr with
  | error e => rfl
  | ok rel =>
    cases body with
    | none => rfl
    | some v =>
      simp only [requestPayload, jsonEncode]
      cases std.jsonMarshal v with
      | error e => rfl
      | ok t => rfl

theorem httpNewRequest_ok_inv (std : GoStd) (method url : String) (body : Option (List Char))
    (req : Request) (h : httpNewRequest std method url body = .ok req) :
    ∃ u, std.urlParse url = .ok u ∧
      req = { Method := if method = "" then "GET" else method,
              URL := { u with Host := removeEmptyPort u.Host }, Header := [], Body := body,
              Host := removeEmptyPort u.Host } := by
  unfold httpNewRequest at h
  by_cases hm : validMethod (if method = "" then "GET" else method) = true
  · simp only [hm] at h
    cases hu : std.urlParse url with
    | error e => simp [hu] at h
    | ok u =>
      simp [hu] at h
      exact ⟨u, rfl, h.symm⟩
  · simp [hm] at h

theorem httpNewRequest_ok (std : GoStd) (method url : String) (body : Option (List Char)) (u : URL)
    (hm : validMethod (if method = "" then "GET" else method) = true)
    (hu : std.urlParse url = .ok u) :
    httpNewRequest std method url body =
      .ok { Method := if method = "" then "GET" else method,
            URL := { u with Host := removeEmptyPort u.Host }, Header := [], Body := body,
            Host := removeEmptyPort u.Host } := by
  unfold httpNewRequest
  simp only [hm, hu]
  rfl

theorem NewRequest_some_inv (std : GoStd) (c : Client) (method urlStr : String)
    (body : Option GoValue) (req : Request)
    (h : (NewRequest std c method urlStr body).1 = some req) :
    ∃ rel buf req0, std.urlParse urlStr = .ok rel ∧ requestPayload std body = .ok buf ∧
      httpNewRequest std method (std.urlString (requestTarget std c rel)) buf = .ok req0 ∧
      req = withHeaders c req0 ∧ NewRequest std c method urlStr body = (some req, none) := by
  rw [NewRequest_eq] at h ⊢
  cases h1 : std.urlParse urlStr with
  | error e => simp [h1] at h
  | ok rel =>
    simp only [h1] at h ⊢
    cases h2 : requestPayload std body with
    | error e => simp [h2] at h
    | ok buf =>
      simp only [h2] at h ⊢
      cases h3 : httpNewRequest std method (std.urlString (requestTarget std c rel)) buf with
      | error e => simp [h3] at h
      | ok req0 =>
        simp only [h3] at h ⊢
        simp at h
        exact ⟨rel, buf, req0, rfl, rfl, h3, h.symm, by rw [h]⟩

/-! ## Lemmas on the model of `url.Parse` -/

theorem alnum_range (c : Char) (h : c.isAlphanum = true) :
    (48 ≤ c.toNat ∧ c.toNat ≤ 57) ∨ (65 ≤ c.toNat ∧ c.toNat ≤ 90) ∨
      (97 ≤ c.toNat ∧ c.toNat ≤ 122) := by
  simp only [Char.isAlphanum, Char.isAlpha, Char.isUpper, Char.isLower, Char.isDigit,
    Bool.or_eq_true, Bool.and_eq_true, decide_eq_true_eq] at h
  simp only [Char.toNat, UInt32.toNat, ge_iff_le, UInt32.le_def, BitVec.le_def] at *
  have e1 : (UInt32.toBitVec 65).toNat = 65 := rfl
  have e2 : (UInt32.toBitVec 90).toNat = 90 := rfl
  have e3 : (UInt32.toBitVec 97).toNat = 97 := rfl
  have e4 : (UInt32.toBitVec 122).toNat = 122 := rfl
  have e5 : (UInt32.toBitVec 48).toNat = 48 := rfl
  have e6 : (UInt32.toBitVec 57).toNat = 57 := rfl
  rw [e1, e2, e3, e4, e5, e6] at h
  omega

theorem plain_cases (c : Char) (h : isPlainPathChar c = true) :
    c.isAlphanum = true ∨ c = '-' ∨ c = '_' ∨ c = '.' ∨ c = '~' ∨ c = '/' := by
  simpa [isPlainPathChar, or_assoc] using h

theorem plain_not_ctl (c : Char) (h : isPlainPathChar c = true) :
    (decide (c.toNat < 0x20) || decide (c.toNat = 0x7f)) = false := by
  rcases plain_cases c h with h | h | h | h | h | h
  · have := alnum_range c h
    simp only [Bool.or_eq_false_iff, decide_eq_false_iff_not]
    omega
  all_goals subst h; decide

theorem shouldEscape_plain (c : Char) (h : isPlainPathChar c = true) :
    Model.shouldEscape c .path = false := by
  rcases plain_cases c h with h | h | h | h | h | h
  · simp [Model.shouldEscape, h]
  all_goals subst h; decide

theorem plain_not_mem (l : List Char) (h : l.all isPlainPathChar = true) (x : Char)
    (hx : isPlainPathChar x = false) : x ∉ l := by
  intro hm
  have := List.all_eq_true.mp h x hm
  rw [hx] at this
  cases this

theorem cut_of_not_mem (sep : Char) :
    ∀ l : List Char, sep ∉ l → Model.cut sep l = (l, [], false)
  | [], _ => rfl
  | c :: cs, h => by
    have hc : (c == sep) = false := by
      simp only [beq_eq_false_iff_ne, ne_eq]
      intro heq
      exact h (heq ▸ List.mem_cons_self _ _)
    have ih := cut_of_not_mem sep cs (fun hm => h (List.mem_cons_of_mem _ hm))
    simp [Model.cut, hc, ih]

theorem mem_cut_fst (sep x : Char) : ∀ l : List Char, x ∈ (Model.cut sep l).1 → x ∈ l
  | [], h => by simp [Model.cut] at h
  | c :: cs, h => by
    unfold Model.cut at h
    split at h
    · simp at h
    · simp only [List.mem_cons] at h
      rcases h with h | h
      · exact h ▸ List.mem_cons_self _ _
      · exact List.mem_cons_of_mem _ (mem_cut_fst sep x cs h)

theorem getSchemeLoop_of_no_colon (raw : List Char) :
    ∀ (cs : List Char) (i : Nat), ':' ∉ cs → Model.getSchemeLoop raw i cs = .ok ([], raw)
  | [], _, _ => rfl
  | c :: cs, i, h => by
    have hc : (c == ':') = false := by
      simp only [beq_eq_false_iff_ne, ne_eq]
      intro heq
      exact h (heq ▸ List.mem_cons_self _ _)
    have ih := fun j =>
      getSchemeLoop_of_no_colon raw cs j (fun hm => h (List.mem_cons_of_mem _ hm))
    unfold Model.getSchemeLoop
    split
    · exact ih _
    · split
      · split
        · rfl
        · exact ih _
      · simp [hc]

theorem unescape_of_no_percent : ∀ l : List Char, '%' ∉ l → Model.unescape l = .ok l
  | [], _ => rfl
  | c :: cs, h => by
    have ih := unescape_of_no_percent cs (fun hm => h (List.mem_cons_of_mem _ hm))
    have hc2 : c ≠ '%' := fun heq => h (heq ▸ List.mem_cons_self _ _)
    unfold Model.unescape
    split
    · rename_i heq
      cases heq
    · rename_i heq
      injection heq with h1 h2
      exact absurd h1 hc2
    · rename_i heq
      injection heq with h1 h2
      exact absurd h1 hc2
    · rename_i heq
      injection heq with h1 h2
      subst h1 h2
      rw [ih]

theorem escape_plain :
    ∀ l : List Char, l.all isPlainPathChar = true → Model.escape l .path = l
  | [], _ => rfl
  | c :: cs, h => by
    simp only [List.all_cons, Bool.and_eq_true] at h
    have ih := escape_plain cs h.2
    unfold Model.escape at ih ⊢
    simp [List.flatMap_cons, shouldEscape_plain c h.1, ih]

theorem parse_plain (l : List Char) (h : l.all isPlainPathChar = true)
    (hs : l.head? ≠ some '/') : Model.parse l = .ok { Path := String.mk l } := by
  have h1 : l.any (fun c => decide (c.toNat < 0x20) || decide (c.toNat = 0x7f)) = false := by
    rw [List.any_eq_false]
    intro c hc
    have := plain_not_ctl c (List.all_eq_true.mp h c hc)
    simp [this]
  have h2 : l ≠ ['*'] := by
    intro heq
    rw [heq] at h
    exact absurd h (by decide)
  have h3 : Model.getScheme l = .ok ([], l) :=
    getSchemeLoop_of_no_colon l l 0 (plain_not_mem l h ':' (by decide))
  have h4 : l.count '?' = 0 :=
    List.count_eq_zero_of_not_mem (plain_not_mem l h '?' (by decide))
  have h5 : Model.cut '?' l = (l, [], false) :=
    cut_of_not_mem '?' l (plain_not_mem l h '?' (by decide))
  have h6 : ':' ∉ (Model.cut '/' l).1 := fun hm =>
    absurd (mem_cut_fst '/' ':' l hm) (plain_not_mem l h ':' (by decide))
  have h7 : (['/', '/'] : List Char).isPrefixOf l = false := by
    cases l with
    | nil => rfl
    | cons c cs =>
      have : ¬ ('/' = c) := fun heq => hs (by rw [← heq]; rfl)
      simp [List.isPrefixOf, this]
  have h8 : Model.unescape l = .ok l :=
    unescape_of_no_percent l (plain_not_mem l h '%' (by decide))
  have h9 : Model.escape l .path = l := escape_plain l h
  unfold Model.parse
  simp [h1, h2, h3, h4, h5, h6, h7, hs, Model.setPath, h8, h9]

theorem urlParse_plain (p : String) (h : p.data.all isPlainPathChar = true)
    (hs : p.data.head? ≠ some '/') : goStd.urlParse p = .ok { Path := p } := by
  show Model.urlParse p = _
  unfold Model.urlParse
  have h0 : Model.cut '#' p.data = (p.data, [], false) :=
    cut_of_not_mem '#' p.data (plain_not_mem p.data h '#' (by decide))
  simp only [h0, parse_plain p.data h hs]
  rfl

/-! ## Lemmas on `Do` -/

theorem Do_eq_of_response (std : GoStd) {α : Type} [GoUnmarshal α] (c : Client) (ctx : Ctx)
    (req : Request) (v : Dest α) (r : Response) (hr : c.HTTPClient ctx req = .ok r) :
    Do std c ctx req v =
      { resp := if (doReceived std r v).1 then
            some { (doReceived std r v).2.2.2 with
              Body := drainAndClose (doReceived std r v).2.2.2.Body }
          else none,
        err := (doReceived std r v).2.1,
        v := (doReceived std r v).2.2.1,
        body := some (drainAndClose (doReceived std r v).2.2.2.Body) } := by
  unfold Do ctxhttpDo
  simp only [hr]

theorem checkResponse_fst (std : GoStd) (r : Response) :
    (checkResponse std r).1 =
      if r.StatusCode ≥ 400 then some (.api (jsonDecode std r.Body ({} : APIError)).1)
      else none := by
  unfold checkResponse
  split <;> rfl

theorem checkResponse_of_status_lt (std : GoStd) (r : Response) (hs : r.StatusCode < 400) :
    checkResponse std r = (none, r) := by
  unfold checkResponse
  have : ¬ r.StatusCode ≥ 400 := by omega
  simp [this]

theorem doReceived_of_error (std : GoStd) {α : Type} [GoUnmarshal α] (r : Response) (v : Dest α)
    (err : GoError) (h : (checkResponse std r).1 = some err) :
    (doReceived std r v).1 = true ∧ (doReceived std r v).2.1 = some err ∧
      (doReceived std r v).2.2.1 = v := by
  unfold doReceived
  split
  · rename_i e resp1 heq
    rw [heq] at h
    simp at h
    simp [h]
  · rename_i resp1 heq
    rw [heq] at h
    simp at h

theorem doReceived_of_status_ge (std : GoStd) {α : Type} [GoUnmarshal α] (r : Response)
    (v : Dest α) (hs : r.StatusCode ≥ 400) :
    (doReceived std r v).2.1 = some (.api (jsonDecode std r.Body ({} : APIError)).1) := by
  have h : (checkResponse std r).1 = some (.api (jsonDecode std r.Body ({} : APIError)).1) := by
    rw [checkResponse_fst]
    simp [hs]
  exact (doReceived_of_error std r v _ h).2.1

theorem doReceived_writer (std : GoStd) {α : Type} [GoUnmarshal α] (r : Response) (w : Writer)
    (hs : r.StatusCode < 400) :
    (doReceived std r (Dest.writer w : Dest α)).2.1 = (ioCopy w r.Body).2.2 ∧
    (doReceived std r (Dest.writer w : Dest α)).2.2.1 = .writer (ioCopy w r.Body).1 := by
  unfold doReceived
  rw [checkResponse_of_status_lt std r hs]
  simp only
  cases (ioCopy w r.Body).2.2 <;> exact ⟨rfl, rfl⟩

theorem doReceived_value (std : GoStd) {α : Type} [GoUnmarshal α] (r : Response) (x : α)
    (hs : r.StatusCode < 400) :
    (doReceived std r (Dest.value x)).2.1
      = (if (jsonDecode std r.Body x).2.2 = some .EOF then none
         else (jsonDecode std r.Body x).2.2) ∧
    (doReceived std r (Dest.value x)).2.2.1 = .value (jsonDecode std r.Body x).1 := by
  unfold doReceived
  rw [checkResponse_of_status_lt std r hs]
  exact ⟨rfl, rfl⟩

/-! ## Lemmas on the decoder -/

theorem jsonDecode_of_not_value (std : GoStd) {α : Type} [GoUnmarshal α] (b : Body) (v : α)
    (h : ∀ j n, std.jsonScan b.unread ≠ .value j n) : (jsonDecode std b v).1 = v := by
  unfold jsonDecode
  split
  · rfl
  · split
    · rfl
    · rfl
    · rename_i j n heq
      exact absurd heq (h j n)

theorem jsonDecode_of_object (std : GoStd) {α : Type} [GoUnmarshal α] (b : Body) (v : α)
    (members : List (String × JSON)) (n : Nat) (hnb : b.unread.all isSpace = false)
    (h : std.jsonScan b.unread = .value (.object members) n) :
    (jsonDecode std b v).1 = (GoUnmarshal.unmarshal (.object members) v).1 := by
  unfold jsonDecode
  simp [hnb, h, JSON.endsDelayed]

theorem jsonDecode_ok_inv (std : GoStd) {α : Type} [GoUnmarshal α] (b : Body) (v : α)
    (h : (jsonDecode std b v).2.2 = none) :
    ∃ j n, std.jsonScan b.unread = .value j n ∧ (GoUnmarshal.unmarshal j v).2 = none ∧
      (jsonDecode std b v).1 = (GoUnmarshal.unmarshal j v).1 := by
  by_cases hb : b.unread.all isSpace = true
  · unfold jsonDecode at h
    rw [if_pos hb] at h
    cases h
  · cases hsc : std.jsonScan b.unread with
    | incomplete =>
      unfold jsonDecode at h
      rw [if_neg hb, hsc] at h
      cases h
    | syntaxError msg n =>
      unfold jsonDecode at h
      rw [if_neg hb, hsc] at h
      cases h
    | value j n =>
      by_cases hc : (j.endsDelayed && decide (b.unread.length ≤ n) && b.readError.isSome) = true
      · unfold jsonDecode at h
        rw [if_neg hb, hsc] at h
        simp only at h
        rw [if_pos hc] at h
        simp only at h
        rw [h] at hc
        simp at hc
      · have h3 : jsonDecode std b v = ((GoUnmarshal.unmarshal j v).1,
            { b with unread := b.unread.drop n }, (GoUnmarshal.unmarshal j v).2) := by
          unfold jsonDecode
          rw [if_neg hb, hsc]
          simp only
          rw [if_neg hc]
        rw [h3] at h
        exact ⟨j, n, rfl, h, by rw [h3]⟩

theorem keyMatches_iff (name key : String) :
    keyMatches name key = true ↔ foldName key = foldName name := by
  unfold keyMatches
  simp only [Bool.or_eq_true, beq_iff_eq]
  constructor
  · rintro (h | h)
    · rw [h]
    · exact h
  · intro h
    exact Or.inr h

theorem keyMatches_error_not_description (key : String) (h : keyMatches "error" key = true) :
    keyMatches "description" key = false := by
  cases hd : keyMatches "description" key with
  | false => rfl
  | true =>
    rw [keyMatches_iff] at h hd
    rw [h] at hd
    exact absurd hd (by decide)

theorem storeMember_foldl (code desc : String) :
    ∀ (members : List (String × JSON)) (acc : APIError × Option GoError),
    (∀ m ∈ members, keyMatches "error" m.1 = true → m.2 = .string code) →
    (∀ m ∈ members, keyMatches "description" m.1 = true → m.2 = .string desc) →
    (members.foldl APIError.storeMember acc).1.Code
        = (if members.any (fun m => keyMatches "error" m.1) then code else acc.1.Code) ∧
    (members.foldl APIError.storeMember acc).1.Description
        = (if members.any (fun m => keyMatches "description" m.1) then desc
           else acc.1.Description) := by
  intro members
  induction members with
  | nil => intro acc _ _; simp
  | cons m ms ih =>
    intro acc hc hd
    have hc' : ∀ m ∈ ms, keyMatches "error" m.1 = true → m.2 = .string code :=
      fun x hx => hc x (List.mem_cons_of_mem _ hx)
    have hd' : ∀ m ∈ ms, keyMatches "description" m.1 = true → m.2 = .string desc :=
      fun x hx => hd x (List.mem_cons_of_mem _ hx)
    have ih' := ih (APIError.storeMember acc m) hc' hd'
    rw [List.foldl_cons, ih'.1, ih'.2, List.any_cons, List.any_cons]
    cases hmd : keyMatches "description" m.1 with
    | true =>
      have hme : keyMatches "error" m.1 = false := by
        cases hme : keyMatches "error" m.1 with
        | false => rfl
        | true => rw [keyMatches_error_not_description _ hme] at hmd; cases hmd
      have hv := hd m (List.mem_cons_self _ _) hmd
      have hs : APIError.storeMember acc m
          = ({ acc.1 with Description := desc }, acc.2 <|> none) := by
        simp [APIError.storeMember, hmd, hv, unmarshalString]
      rw [hs, hme]
      exact ⟨rfl, by simp⟩
    | false =>
      cases hme : keyMatches "error" m.1 with
      | true =>
        have hv := hc m (List.mem_cons_self _ _) hme
        have hs : APIError.storeMember acc m = ({ acc.1 with Code := code }, acc.2 <|> none) := by
          simp [APIError.storeMember, hmd, hme, hv, unmarshalString]
        rw [hs]
        exact ⟨by simp, rfl⟩
      | false =>
        have hs : APIError.storeMember acc m = acc := by
          simp [APIError.storeMember, hmd, hme]
        rw [hs]
        exact ⟨rfl, rfl⟩

/-! ## Lemmas on `io.Copy` -/

theorem Writer_Write_written (w : Writer) (p : List Char) :
    (w.Write p).1.written = w.written ++ p.take (w.Write p).2.1 := by
  unfold Writer.Write
  rfl

theorem ioCopyLoop_succ (fuel : Nat) (w : Writer) (b : Body) :
    ioCopyLoop (fuel + 1) w b =
      if b.unread = [] then (w, b, b.readError)
      else
        match (w.Write (b.unread.take 32768)).2.2 with
        | some ew => ((w.Write (b.unread.take 32768)).1,
            { b with unread := b.unread.drop 32768 }, some ew)
        | none =>
          if (w.Write (b.unread.take 32768)).2.1 ≠ (b.unread.take 32768).length then
            ((w.Write (b.unread.take 32768)).1, { b with unread := b.unread.drop 32768 },
              some .ErrShortWrite)
          else
            ioCopyLoop fuel (w.Write (b.unread.take 32768)).1
              { b with unread := b.unread.drop 32768 } := rfl

theorem ioCopyLoop_written : ∀ (fuel : Nat) (w : Writer) (b : Body), b.unread.length ≤ fuel →
    (∃ k, (ioCopyLoop fuel w b).1.written = w.written ++ b.unread.take k) ∧
    ((ioCopyLoop fuel w b).2.2 = none →
      (ioCopyLoop fuel w b).1.written = w.written ++ b.unread) := by
  intro fuel
  induction fuel with
  | zero =>
    intro w b hlen
    have hnil : b.unread = [] := List.length_eq_zero.mp (Nat.le_zero.mp hlen)
    simp [ioCopyLoop, hnil]
  | succ fuel ih =>
    intro w b hlen
    rw [ioCopyLoop_succ]
    have hw := Writer_Write_written w (b.unread.take 32768)
    split
    · rename_i hnil
      simp [hnil]
    · rename_i hnil
      split
      · refine ⟨⟨min (w.Write (b.unread.take 32768)).2.1 32768, ?_⟩, by simp⟩
        rw [hw, List.take_take]
      · split
        · refine ⟨⟨min (w.Write (b.unread.take 32768)).2.1 32768, ?_⟩, by simp⟩
          rw [hw, List.take_take]
        · rename_i hn
          have hn' : (w.Write (b.unread.take 32768)).2.1 = (b.unread.take 32768).length :=
            not_not.mp hn
          have hfull : (w.Write (b.unread.take 32768)).1.written
              = w.written ++ b.unread.take 32768 := by
            rw [hw, hn', List.take_length]
          have hpos : 0 < b.unread.length := List.length_pos.mpr hnil
          have hlen' :
              ({ b with unread := b.unread.drop 32768 } : Body).unread.length ≤ fuel := by
            simp only [List.length_drop]
            omega
          have ih' := ih (w.Write (b.unread.take 32768)).1
            { b with unread := b.unread.drop 32768 } hlen'
          constructor
          · obtain ⟨k, hk⟩ := ih'.1
            refine ⟨32768 + k, ?_⟩
            rw [hk, hfull, List.append_assoc, List.take_add]
          · intro herr
            rw [ih'.2 herr, hfull, List.append_assoc, List.take_append_drop]

theorem ioCopy_written (w : Writer) (b : Body) :
    (∃ k, (ioCopy w b).1.written = w.written ++ b.unread.take k) ∧
    ((ioCopy w b).2.2 = none → (ioCopy w b).1.written = w.written ++ b.unread) :=
  ioCopyLoop_written b.unread.length w b (Nat.le_refl _)

/-! ## Lemmas for the disk service and the deferred function -/

theorem NewRequest_of_no_error (std : GoStd) (c : Client) (method urlStr : String)
    (body : Option GoValue) (h : (NewRequest std c method urlStr body).2 = none) :
    ∃ req0, NewRequest std c method urlStr body = (some (withHeaders c req0), none) ∧
      req0.Method = (if method = "" then "GET" else method) ∧
      (requestPayload std body = .ok req0.Body) := by
  rw [NewRequest_eq] at h ⊢
  cases h1 : std.urlParse urlStr with
  | error e => simp [h1] at h
  | ok rel =>
    simp only [h1] at h ⊢
    cases h2 : requestPayload std body with
    | error e => simp [h2] at h
    | ok buf =>
      simp only [h2] at h ⊢
      cases h3 : httpNewRequest std method (std.urlString (requestTarget std c rel)) buf with
      | error e => simp [h3] at h
      | ok req0 =>
        obtain ⟨u, _, hreq⟩ := httpNewRequest_ok_inv std method _ buf req0 h3
        refine ⟨req0, rfl, ?_, ?_⟩
        · rw [hreq]
        · rw [hreq]

theorem jsonDecode_closed (std : GoStd) {α : Type} [GoUnmarshal α] (b : Body) (v : α) :
    (jsonDecode std b v).2.1.closed = b.closed := by
  unfold jsonDecode
  split
  · rfl
  · split
    · rfl
    · rfl
    · split <;> rfl

theorem ioCopyLoop_closed : ∀ (fuel : Nat) (w : Writer) (b : Body),
    (ioCopyLoop fuel w b).2.1.closed = b.closed := by
  intro fuel
  induction fuel with
  | zero => intro w b; rfl
  | succ fuel ih =>
    intro w b
    rw [ioCopyLoop_succ]
    split
    · rfl
    · split
      · rfl
      · split
        · rfl
        · rw [ih]

theorem checkResponse_snd (std : GoStd) (r : Response) :
    (checkResponse std r).2.StatusCode = r.StatusCode ∧
    (checkResponse std r).2.Body.closed = r.Body.closed := by
  unfold checkResponse
  split
  · exact ⟨rfl, jsonDecode_closed std r.Body _⟩
  · exact ⟨rfl, rfl⟩

theorem doReceived_response (std : GoStd) {α : Type} [GoUnmarshal α] (r : Response) (v : Dest α) :
    (doReceived std r v).2.2.2.StatusCode = r.StatusCode ∧
    (doReceived std r v).2.2.2.Body.closed = r.Body.closed := by
  have hc := checkResponse_snd std r
  unfold doReceived
  split
  · rename_i e resp1 heq
    rw [heq] at hc
    exact hc
  · rename_i resp1 heq
    rw [heq] at hc
    split
    · exact hc
    · rename_i w
      simp only
      have hcl : (ioCopy w resp1.Body).2.1.closed = resp1.Body.closed :=
        ioCopyLoop_closed _ w resp1.Body
      split
      · exact ⟨hc.1, by simp only; rw [hcl]; exact hc.2⟩
      · exact ⟨hc.1, by simp only; rw [hcl]; exact hc.2⟩
    · rename_i x
      exact ⟨hc.1, by simp only; rw [jsonDecode_closed]; exact hc.2⟩

theorem doReceived_returns_response (std : GoStd) {α : Type} [GoUnmarshal α] (r : Response)
    (v : Dest α) :
    (doReceived std r v).1 = false ↔
      r.StatusCode < 400 ∧ ∃ w, v = .writer w ∧ (ioCopy w r.Body).2.2 ≠ none := by
  by_cases hs : r.StatusCode < 400
  · unfold doReceived
    rw [checkResponse_of_status_lt std r hs]
    cases v with
    | nil => simp [hs]
    | value x => simp [hs]
    | writer w =>
      simp only
      cases hcopy : (ioCopy w r.Body).2.2 with
      | none => simp [hs, hcopy]
      | some e => simp [hs, hcopy]
  · have hge : r.StatusCode ≥ 400 := by omega
    have h : (checkResponse std r).1
        = some (.api (jsonDecode std r.Body ({} : APIError)).1) := by
      rw [checkResponse_fst]
      simp [hge]
    have := (doReceived_of_error std r v _ h).1
    simp [this, hs]

theorem Do_value_dest (std : GoStd) {α : Type} [GoUnmarshal α] (c : Client) (ctx : Ctx)
    (req : Request) (x : α) : ∃ y, (Do std c ctx req (Dest.value x)).v = .value y := by
  unfold Do
  cases ctxhttpDo ctx c.HTTPClient req with
  | error e => exact ⟨x, rfl⟩
  | ok r =>
    simp only
    unfold doReceived
    split
    · exact ⟨x, rfl⟩
    · exact ⟨_, rfl⟩

/-! ## The claims -/

/-- C1: for a response `r` that the transport delivers to `Do`, `checkResponse`
returns a `*APIError` exactly when the status code is at least 400 and nil
exactly when it is below 400, whatever the body holds and whatever the
decoder makes of it; a non-nil result is always a `*APIError`, never a
decode error; `Do` then returns that very error and leaves the destination
`v` as it was. -/
theorem checkResponse_apiError_iff_status (std : GoStd) {α : Type} [GoUnmarshal α] (c : Client)
    (ctx : Ctx) (req : Request) (v : Dest α) (r : Response)
    (hr : c.HTTPClient ctx req = .ok r) :
    ((∃ e, (checkResponse std r).1 = some (.api e)) ↔ r.StatusCode ≥ 400) ∧
    ((checkResponse std r).1 = none ↔ r.StatusCode < 400) ∧
    (∀ err, (checkResponse std r).1 = some err →
      err.isAPIError = true ∧ (Do std c ctx req v).err = some err ∧
      (Do std c ctx req v).v = v) := by
  refine ⟨?_, ?_, ?_⟩
  · rw [checkResponse_fst]
    split <;> simp_all
  · rw [checkResponse_fst]
    split
    · simp; omega
    · simp; omega
  · intro err herr
    have hd := doReceived_of_error std r v err herr
    rw [Do_eq_of_response std c ctx req v r hr]
    refine ⟨?_, hd.2.1, hd.2.2⟩
    rw [checkResponse_fst] at herr
    split at herr
    · simp at herr
      subst herr
      rfl
    · simp at herr

/-- Witness of C1: the test server answers 400 with the text `Bad Request`
while the destination is a buffer; the error is the unclassified `APIError`
and the buffer is as before. -/
theorem checkResponse_apiError_iff_status_witness :
    (testClient (serve 400 "Bad Request\n")).HTTPClient {} testRequest
        = .ok { StatusCode := 400, Body := { unread := "Bad Request\n".data } } ∧
    (Do goStd (testClient (serve 400 "Bad Request\n")) {} testRequest
        (Dest.writer bytesBuffer : Dest Foo)).err = some (.api {}) ∧
    (Do goStd (testClient (serve 400 "Bad Request\n")) {} testRequest
        (Dest.writer bytesBuffer : Dest Foo)).v = Dest.writer bytesBuffer :=
  ⟨rfl,
   ((checkResponse_apiError_iff_status goStd (testClient (serve 400 "Bad Request\n")) {}
      testRequest (Dest.writer bytesBuffer : Dest Foo)
      { StatusCode := 400, Body := { unread := "Bad Request\n".data } } rfl).2.2
      (.api {}) (by rfl)).2⟩

/-- C2: whenever `NewRequest` succeeds, for any client, method, urlStr and body
(nil or not), the `Authorization` header of the request has exactly one
value, the text `OAuth ` followed by the access token. -/
theorem NewRequest_authorization (std : GoStd) (c : Client) (method urlStr : String)
    (body : Option GoValue) (h : (NewRequest std c method urlStr body).2 = none) :
    ∃ req, (NewRequest std c method urlStr body).1 = some req ∧
      req.Header.Values "Authorization" = ["OAuth " ++ c.AccessToken] := by
  rw [NewRequest_eq] at h ⊢
  cases h1 : std.urlParse urlStr with
  | error e => simp [h1] at h
  | ok rel =>
    simp only [h1] at h ⊢
    cases h2 : requestPayload std body with
    | error e => simp [h2] at h
    | ok buf =>
      simp only [h2] at h ⊢
      cases h3 : httpNewRequest std method (std.urlString (requestTarget std c rel)) buf with
      | error e => simp [h3] at h
      | ok req => simp [withHeaders, Header.Values, Header.Set]

/-- Witness of C2: the request of `TestNewRequest`. -/
theorem NewRequest_authorization_witness :
    (NewRequest goStd (NewClient goStd "ACCESS_TOKEN") "GET" "disk" (some userBody)).2 = none ∧
    ∃ req, (NewRequest goStd (NewClient goStd "ACCESS_TOKEN") "GET" "disk" (some userBody)).1
        = some req ∧
      req.Header.Values "Authorization" = ["OAuth " ++ "ACCESS_TOKEN"] :=
  ⟨rfl, NewRequest_authorization goStd (NewClient goStd "ACCESS_TOKEN") "GET" "disk"
    (some userBody) rfl⟩

/-- Counterexample to C3: `a%2Fb` is a relative path that parses, without
scheme, host or leading slash, and `url.Parse` puts the unescaped `a/b` in
`Path`.  The request URL is `https://cloud-api.yandex.net/v1/a/b/`, while the
base URL resolved against the reference `v1/a%2Fb/` is
`https://cloud-api.yandex.net/v1/a%2Fb/` when the reference is parsed from
that text, and `https://cloud-api.yandex.net/v1/a%252Fb/` when that text is
put in its `Path`. -/
theorem NewRequest_url_escaped_path_counterexample :
    goStd.urlParse "a%2Fb" = .ok { Path := "a/b", RawPath := "a%2Fb" } ∧
    (∃ req, NewRequest goStd (NewClient goStd "ACCESS_TOKEN") "GET" "a%2Fb" none
        = (some req, none) ∧
      goStd.urlString req.URL = "https://cloud-api.yandex.net/v1/a/b/") ∧
    (goStd.urlParse ("v1/" ++ "a%2Fb" ++ "/")).map
        (fun ref => goStd.urlString
          (goStd.resolveReference (NewClient goStd "ACCESS_TOKEN").BaseURL ref))
      = .ok "https://cloud-api.yandex.net/v1/a%2Fb/" ∧
    goStd.urlString (goStd.resolveReference (NewClient goStd "ACCESS_TOKEN").BaseURL
        { Path := "v1/" ++ "a%2Fb" ++ "/" })
      = "https://cloud-api.yandex.net/v1/a%252Fb/" :=
  ⟨rfl, ⟨_, rfl, rfl⟩, rfl, rfl⟩

/-- C3, as amended: let urlStr parse to the reference `rel`.  Every request that
`NewRequest` builds has as its URL what `http.NewRequest` parses from the
text of the base URL resolved against `rel` with its `Path` replaced by
`"v1/" + rel.Path + "/"`; and `NewRequest` does build that request when the
method is valid, that text parses, and the body is nil or serializable.
With the library model, a path `p` of ASCII letters, digits, `-`, `_`, `.`,
`~` and `/` without a leading slash parses to the reference whose only part
is `Path = p`, so that the reference is the path `"v1/" + p + "/"`; and for
a client from `NewClient` and `disk` the request URL is exactly
`https://cloud-api.yandex.net/v1/disk/`. -/
theorem NewRequest_url (std : GoStd) (c : Client) (method urlStr : String)
    (body : Option GoValue) (rel : URL) (hp : std.urlParse urlStr = .ok rel) :
    (∀ req, (NewRequest std c method urlStr body).1 = some req →
      ∃ u, std.urlParse (std.urlString (std.resolveReference c.BaseURL
            { rel with Path := "v1/" ++ rel.Path ++ "/" })) = .ok u ∧
        req.URL = { u with Host := removeEmptyPort u.Host }) ∧
    (∀ u, validMethod (if method = "" then "GET" else method) = true →
      std.urlParse (std.urlString (std.resolveReference c.BaseURL
          { rel with Path := "v1/" ++ rel.Path ++ "/" })) = .ok u →
      (∀ v, body = some v → ∃ text, std.jsonMarshal v = .ok text) →
      ∃ req, NewRequest std c method urlStr body = (some req, none) ∧
        req.URL = { u with Host := removeEmptyPort u.Host }) ∧
    (∀ (p : String) (c1 : Client) (m : String) (b : Option GoValue) (req : Request),
      p.data.all isPlainPathChar = true → p.data.head? ≠ some '/' →
      (NewRequest goStd c1 m p b).1 = some req →
      goStd.urlParse p = .ok { Path := p } ∧
      ∃ u, goStd.urlParse (goStd.urlString (goStd.resolveReference c1.BaseURL
            { Path := "v1/" ++ p ++ "/" })) = .ok u ∧
        req.URL = { u with Host := removeEmptyPort u.Host }) ∧
    (∃ req, NewRequest goStd (NewClient goStd "ACCESS_TOKEN") "GET" "disk" none
        = (some req, none) ∧
      goStd.urlString req.URL = "https://cloud-api.yandex.net/v1/disk/") := by
  have key : ∀ (std : GoStd) (c : Client) (method urlStr : String) (body : Option GoValue)
      (rel : URL) (req : Request), std.urlParse urlStr = .ok rel →
      (NewRequest std c method urlStr body).1 = some req →
      ∃ u, std.urlParse (std.urlString (std.resolveReference c.BaseURL
            { rel with Path := "v1/" ++ rel.Path ++ "/" })) = .ok u ∧
        req.URL = { u with Host := removeEmptyPort u.Host } := by
    intro std c method urlStr body rel req hp hreq
    obtain ⟨rel1, buf, req0, h1, _, h3, h4, _⟩ :=
      NewRequest_some_inv std c method urlStr body req hreq
    rw [hp] at h1
    cases h1
    obtain ⟨u, hu, hr⟩ := httpNewRequest_ok_inv std method _ buf req0 h3
    refine ⟨u, hu, ?_⟩
    rw [h4, hr]
    rfl
  refine ⟨fun req hreq => key std c method urlStr body rel req hp hreq, ?_, ?_, ⟨_, rfl, rfl⟩⟩
  · intro u hm hu hb
    have hpay : ∃ buf, requestPayload std body = .ok buf := by
      cases body with
      | none => exact ⟨none, rfl⟩
      | some v =>
        obtain ⟨text, ht⟩ := hb v rfl
        exact ⟨some (text ++ ['\n']), by simp [requestPayload, ht]⟩
    obtain ⟨buf, hbuf⟩ := hpay
    rw [NewRequest_eq]
    simp only [hp, hbuf, requestTarget]
    rw [httpNewRequest_ok std method _ buf u hm hu]
    exact ⟨_, rfl, rfl⟩
  · intro p c1 m b req hplain hhead hreq
    have hparse := urlParse_plain p hplain hhead
    exact ⟨hparse, key goStd c1 m p b { Path := p } req hparse hreq⟩

/-- Witness of C3 as amended: the path `disk` with the client of `NewClient`. -/
theorem NewRequest_url_witness :
    goStd.urlParse "disk" = .ok { Path := "disk" } ∧
    (NewRequest goStd (NewClient goStd "ACCESS_TOKEN") "GET" "disk" none).1
      = some { Method := "GET",
               URL := { Scheme := "https", Host := "cloud-api.yandex.net", Path := "/v1/disk/" },
               Header := [("Authorization", ["OAuth ACCESS_TOKEN"]),
                          ("Accept", ["application/json"]),
                          ("Content-Type", ["application/json"])],
               Body := none, Host := "cloud-api.yandex.net" } ∧
    ∃ u, goStd.urlParse (goStd.urlString (goStd.resolveReference
          (NewClient goStd "ACCESS_TOKEN").BaseURL { Path := "v1/" ++ "disk" ++ "/" })) = .ok u ∧
        ({ Scheme := "https", Host := "cloud-api.yandex.net", Path := "/v1/disk/" } : URL)
          = { u with Host := removeEmptyPort u.Host } :=
  ⟨rfl, rfl, (NewRequest_url goStd (NewClient goStd "ACCESS_TOKEN") "GET" "disk" none
      { Path := "disk" } rfl).1 _ rfl⟩

/-- C4: take a urlStr that parses, a valid method and a resulting URL that
parses, so that a request is built.  With a nil body `NewRequest` returns
the request, no error, and the request has a nil `Body`.  With a body that
`json.Marshal` accepts it returns the request, no error, and the payload is
exactly the JSON encoding followed by one newline.  For `User` with `Login`
`sosisa` and the tag `login` the encoding is `{"login":"sosisa"}` and the
payload that text and a newline. -/
theorem NewRequest_payload (std : GoStd) (c : Client) (method urlStr : String) (rel u : URL)
    (hp : std.urlParse urlStr = .ok rel)
    (hm : validMethod (if method = "" then "GET" else method) = true)
    (hu : std.urlParse (std.urlString
      (std.resolveReference c.BaseURL { rel with Path := "v1/" ++ rel.Path ++ "/" })) = .ok u) :
    (∃ req, NewRequest std c method urlStr none = (some req, none) ∧ req.Body = none) ∧
    (∀ v text, std.jsonMarshal v = .ok text →
      ∃ req, NewRequest std c method urlStr (some v) = (some req, none) ∧
        req.Body = some (text ++ ['\n'])) ∧
    goStd.jsonMarshal userBody = .ok "\x7b\"login\":\"sosisa\"\x7d".data ∧
    (∃ req, NewRequest goStd (NewClient goStd "ACCESS_TOKEN") "GET" "disk" (some userBody)
        = (some req, none) ∧
      req.Body = some "\x7b\"login\":\"sosisa\"\x7d\n".data) := by
  refine ⟨?_, ?_, rfl, ⟨_, rfl, rfl⟩⟩
  · rw [NewRequest_eq]
    simp only [hp, requestPayload, requestTarget]
    rw [httpNewRequest_ok std method _ none u hm hu]
    exact ⟨_, rfl, rfl⟩
  · intro v text hv
    rw [NewRequest_eq]
    simp only [hp, requestPayload, requestTarget, hv]
    rw [httpNewRequest_ok std method _ _ u hm hu]
    exact ⟨_, rfl, rfl⟩

/-- Witness of C4: the call of `TestNewRequest_empty_body`. -/
theorem NewRequest_payload_witness :
    goStd.urlParse "/" = .ok { Path := "/" } ∧
    validMethod (if "GET" = "" then "GET" else "GET") = true ∧
    (∃ req, NewRequest goStd (NewClient goStd "ACCESS_TOKEN") "GET" "/" none = (some req, none) ∧
      req.Body = none) :=
  ⟨rfl, by decide,
   (NewRequest_payload goStd (NewClient goStd "ACCESS_TOKEN") "GET" "/" { Path := "/" }
      { Scheme := "https", Host := "cloud-api.yandex.net", Path := "/v1///" } rfl (by decide)
      rfl).1⟩

/-- Counterexample to C5: the body
`{"error":"NotFound","Error":"Other","description":"d"}` is a JSON object
with the string member `error` = `NotFound` and the string member
`description` = `d`, and with status 404 `Do` returns an `APIError` whose
`Code` is `Other`: the decoder stores the member `Error` in the same field,
after the member `error`. -/
theorem Do_apiError_case_variant_counterexample :
    goStd.jsonScan caseVariantBody.data
      = .value (.object [("error", .string "NotFound"), ("Error", .string "Other"),
          ("description", .string "d")]) 54 ∧
    ∃ e, (Do goStd (testClient (serve 404 caseVariantBody)) {} testRequest
        (Dest.nil : Dest Foo)).err = some (.api e) ∧
      e.Code = "Other" ∧ e.Code ≠ "NotFound" :=
  ⟨rfl, _, rfl, rfl, by decide⟩

/-- C5, as amended: for a response with status at least 400 whose body starts
with a JSON object in which every member whose name is `error` up to the
case of letters is the string `code`, and there is one, and every member
whose name is `description` up to the case of letters is the string `desc`,
and there is one, `Do` returns the `APIError` with `Code = code` and
`Description = desc`.  The message of the error with code
`PlatformResourceAlreadyExists` and description `resource already exists` is
`Yandex.Disk API error. Code: PlatformResourceAlreadyExists. Description: resource already exists.` -/
theorem Do_apiError_code_description (std : GoStd) {α : Type} [GoUnmarshal α] (c : Client)
    (ctx : Ctx) (req : Request) (v : Dest α) (r : Response) (members : List (String × JSON))
    (n : Nat) (code desc : String)
    (hr : c.HTTPClient ctx req = .ok r) (hs : r.StatusCode ≥ 400)
    (hnb : r.Body.unread.all isSpace = false)
    (hscan : std.jsonScan r.Body.unread = .value (.object members) n)
    (hc : ∀ m ∈ members, keyMatches "error" m.1 = true → m.2 = .string code)
    (hc1 : ∃ m ∈ members, keyMatches "error" m.1 = true)
    (hd : ∀ m ∈ members, keyMatches "description" m.1 = true → m.2 = .string desc)
    (hd1 : ∃ m ∈ members, keyMatches "description" m.1 = true) :
    (Do std c ctx req v).err = some (.api { Description := desc, Code := code }) ∧
    APIError.Error { Description := "resource already exists",
                     Code := "PlatformResourceAlreadyExists" }
      = "Yandex.Disk API error. Code: PlatformResourceAlreadyExists. Description: resource already exists." := by
  refine ⟨?_, by decide⟩
  rw [Do_eq_of_response std c ctx req v r hr]
  simp only
  rw [doReceived_of_status_ge std r v hs, jsonDecode_of_object std r.Body _ members n hnb hscan]
  have hf := storeMember_foldl code desc members (({} : APIError), none) hc hd
  have hce : members.any (fun m => keyMatches "error" m.1) = true := by
    obtain ⟨m, hm, hk⟩ := hc1
    exact List.any_eq_true.mpr ⟨m, hm, hk⟩
  have hde : members.any (fun m => keyMatches "description" m.1) = true := by
    obtain ⟨m, hm, hk⟩ := hd1
    exact List.any_eq_true.mpr ⟨m, hm, hk⟩
  rw [hce, hde] at hf
  simp only [if_true] at hf
  show some (GoError.api (APIError.unmarshal (.object members) {}).1) = _
  simp only [APIError.unmarshal]
  generalize members.foldl APIError.storeMember (({} : APIError), none) = res at hf
  obtain ⟨⟨d, k⟩, e⟩ := res
  simp only at hf
  rw [hf.1, hf.2]

/-- Witness of C5 as amended: status 409 with the body of
`TestDo_http_error_json`. -/
theorem Do_apiError_code_description_witness :
    (testClient (serve 409 conflictBody)).HTTPClient {} testRequest
      = .ok { StatusCode := 409, Body := { unread := conflictBody.data } } ∧
    goStd.jsonScan conflictBody.data
      = .value (.object [("description", .string "resource already exists"),
          ("error", .string "PlatformResourceAlreadyExists")]) 81 ∧
    (Do goStd (testClient (serve 409 conflictBody)) {} testRequest (Dest.nil : Dest Foo)).err
      = some (.api { Description := "resource already exists",
                     Code := "PlatformResourceAlreadyExists" }) :=
  ⟨rfl, rfl,
   (Do_apiError_code_description goStd (testClient (serve 409 conflictBody)) {} testRequest
      (Dest.nil : Dest Foo) { StatusCode := 409, Body := { unread := conflictBody.data } }
      [("description", .string "resource already exists"),
       ("error", .string "PlatformResourceAlreadyExists")] 81
      "PlatformResourceAlreadyExists" "resource already exists" rfl (by decide) (by decide) rfl
      (by
        intro m hm hk
        simp only [List.mem_cons, List.mem_singleton, List.not_mem_nil, or_false] at hm
        rcases hm with rfl | rfl
        · exact absurd hk (by decide)
        · rfl)
      ⟨_, List.mem_cons_of_mem _ (List.mem_cons_self _ _), by decide⟩
      (by
        intro m hm hk
        simp only [List.mem_cons, List.mem_singleton, List.not_mem_nil, or_false] at hm
        rcases hm with rfl | rfl
        · rfl
        · exact absurd hk (by decide))
      ⟨_, List.mem_cons_self _ _, by decide⟩).1⟩

/-- C6: `Error()` of an `APIError` is `Yandex.Disk API error` when both `Code` and
`Description` are empty, and in every other case, also when only one of the
two is empty, it is `Yandex.Disk API error. Code: `, the code,
`. Description: `, the description and a full stop, with code and
description verbatim. -/
theorem APIError_Error_rendering (e : APIError) :
    (e.Code = "" ∧ e.Description = "" → e.Error = "Yandex.Disk API error") ∧
    (¬ (e.Code = "" ∧ e.Description = "") →
      e.Error = "Yandex.Disk API error. Code: " ++ e.Code ++ ". Description: "
        ++ e.Description ++ ".") := by
  constructor
  · intro h
    simp [APIError.Error, h]
  · intro h
    simp [APIError.Error, h]

/-- Witness of C6: an error with a code and no description. -/
theorem APIError_Error_rendering_witness :
    ¬ (({ Code := "DiskNotFoundError" } : APIError).Code = "" ∧
        ({ Code := "DiskNotFoundError" } : APIError).Description = "") ∧
    ({ Code := "DiskNotFoundError" } : APIError).Error
      = "Yandex.Disk API error. Code: DiskNotFoundError. Description: ." :=
  ⟨by decide, (APIError_Error_rendering { Code := "DiskNotFoundError" }).2 (by decide)⟩

/-- Counterexample to C7: with status 400 and the body `Bad Request` and a
newline, which is not JSON, the message of the error that `Do` returns is
`Yandex.Disk API error`, without a final full stop. -/
theorem Do_not_json_full_stop_counterexample :
    goStd.jsonScan "Bad Request\n".data
      = .syntaxError "invalid character looking for beginning of value" 1 ∧
    ∃ e, (Do goStd (testClient (serve 400 "Bad Request\n")) {} testRequest
        (Dest.nil : Dest Foo)).err = some (.api e) ∧
      e.Error = "Yandex.Disk API error" ∧ e.Error ≠ "Yandex.Disk API error." :=
  ⟨rfl, _, rfl, by decide, by decide⟩

/-- C7, as amended: for a response with status at least 400 whose body is not
JSON, in that the decoder finds no JSON value at its start, `Do` returns an
`APIError` with empty `Code` and empty `Description`, whose message is
`Yandex.Disk API error`, without a final full stop. -/
theorem Do_not_json_unclassified (std : GoStd) {α : Type} [GoUnmarshal α] (c : Client)
    (ctx : Ctx) (req : Request) (v : Dest α) (r : Response)
    (hr : c.HTTPClient ctx req = .ok r) (hs : r.StatusCode ≥ 400)
    (hbody : ∀ j n, std.jsonScan r.Body.unread ≠ .value j n) :
    ∃ e, (Do std c ctx req v).err = some (.api e) ∧ e.Code = "" ∧ e.Description = "" ∧
      e.Error = "Yandex.Disk API error" := by
  refine ⟨{}, ?_, rfl, rfl, by decide⟩
  rw [Do_eq_of_response std c ctx req v r hr]
  simp only
  rw [doReceived_of_status_ge std r v hs, jsonDecode_of_not_value std r.Body _ hbody]

/-- Witness of C7 as amended: the response of `TestDo_http_error_not_json`. -/
theorem Do_not_json_unclassified_witness :
    (testClient (serve 400 "Bad Request\n")).HTTPClient {} testRequest
        = .ok { StatusCode := 400, Body := { unread := "Bad Request\n".data } } ∧
    goStd.jsonScan "Bad Request\n".data
      = .syntaxError "invalid character looking for beginning of value" 1 ∧
    ∃ e, (Do goStd (testClient (serve 400 "Bad Request\n")) {} testRequest
        (Dest.nil : Dest Foo)).err = some (.api e) ∧ e.Code = "" ∧ e.Description = "" ∧
      e.Error = "Yandex.Disk API error" :=
  ⟨rfl, rfl,
   Do_not_json_unclassified goStd (testClient (serve 400 "Bad Request\n")) {} testRequest
     (Dest.nil : Dest Foo) { StatusCode := 400, Body := { unread := "Bad Request\n".data } }
     rfl (by decide)
     (by
       intro j n h
       have h2 : goStd.jsonScan "Bad Request\n".data
           = .syntaxError "invalid character looking for beginning of value" 1 := rfl
       rw [h2] at h
       cases h)⟩

/-- C8: for a response with status below 400 and a destination that is an
`io.Writer`, `Do` leaves in the writer the result of `io.Copy` and returns
the error of `io.Copy`, whatever the library makes of the body as JSON.
What the writer has accepted beyond what it held is always an initial part
of the body, in order; when the copy succeeds it is the whole body and the
error returned is nil.  With the body `{"A":"a"}` a buffer receives exactly
that text. -/
theorem Do_writer_copies_body (std : GoStd) {α : Type} [GoUnmarshal α] (c : Client) (ctx : Ctx)
    (req : Request) (r : Response) (w : Writer)
    (hr : c.HTTPClient ctx req = .ok r) (hs : r.StatusCode < 400) :
    (Do std c ctx req (Dest.writer w : Dest α)).v = .writer (ioCopy w r.Body).1 ∧
    (Do std c ctx req (Dest.writer w : Dest α)).err = (ioCopy w r.Body).2.2 ∧
    (∃ k, (ioCopy w r.Body).1.written = w.written ++ r.Body.unread.take k) ∧
    ((ioCopy w r.Body).2.2 = none →
      (ioCopy w r.Body).1.written = w.written ++ r.Body.unread ∧
      (Do std c ctx req (Dest.writer w : Dest α)).err = none) ∧
    (∃ w1, (Do goStd (testClient (serve 200 fooBody)) {} testRequest
          (Dest.writer bytesBuffer : Dest Foo)).v = .writer w1 ∧
        w1.written = fooBody.data) := by
  have hd := doReceived_writer std (α := α) r w hs
  have hv : (Do std c ctx req (Dest.writer w : Dest α)).v = .writer (ioCopy w r.Body).1 := by
    rw [Do_eq_of_response std c ctx req _ r hr]
    exact hd.2
  have he : (Do std c ctx req (Dest.writer w : Dest α)).err = (ioCopy w r.Body).2.2 := by
    rw [Do_eq_of_response std c ctx req _ r hr]
    exact hd.1
  refine ⟨hv, he, (ioCopy_written w r.Body).1, ?_, ⟨_, rfl, rfl⟩⟩
  intro hok
  exact ⟨(ioCopy_written w r.Body).2 hok, by rw [he, hok]⟩

/-- Witness of C8: the call of `TestDo`, where the copy into the buffer
succeeds. -/
theorem Do_writer_copies_body_witness :
    (testClient (serve 200 fooBody)).HTTPClient {} testRequest
        = .ok { StatusCode := 200, Body := { unread := fooBody.data } } ∧
    (ioCopy bytesBuffer { unread := fooBody.data }).2.2 = none ∧
    (ioCopy bytesBuffer { unread := fooBody.data }).1.written
        = bytesBuffer.written ++ fooBody.data ∧
    (Do goStd (testClient (serve 200 fooBody)) {} testRequest
        (Dest.writer bytesBuffer : Dest Foo)).err = none :=
  ⟨rfl, rfl,
   (Do_writer_copies_body goStd (testClient (serve 200 fooBody)) {} testRequest
      { StatusCode := 200, Body := { unread := fooBody.data } } bytesBuffer rfl
      (by decide)).2.2.2.1 rfl⟩

/-- C9: for a response with status below 400 and a destination `x` that is
neither nil nor a writer, the error that `Do` returns is the error of the
JSON decoder with `io.EOF` turned into nil, and the destination is what the
decoder leaves.  An empty body from a reader that ends normally gives a nil
error and leaves `x` as it was.  When the decoder succeeds, the error is nil
and `x` holds what `json.Unmarshal` makes of the value scanned from the
body.  Every decoder error other than `io.EOF` is returned unchanged.  With
the body `{"A":"a"}` a `foo` receives `A = "a"`, with a nil error. -/
theorem Do_decode_error_mapping (std : GoStd) {α : Type} [GoUnmarshal α] (c : Client) (ctx : Ctx)
    (req : Request) (r : Response) (x : α)
    (hr : c.HTTPClient ctx req = .ok r) (hs : r.StatusCode < 400) :
    (Do std c ctx req (Dest.value x)).err
      = (if (jsonDecode std r.Body x).2.2 = some .EOF then none
         else (jsonDecode std r.Body x).2.2) ∧
    (Do std c ctx req (Dest.value x)).v = .value (jsonDecode std r.Body x).1 ∧
    (r.Body.unread = [] → r.Body.readError = none →
      (Do std c ctx req (Dest.value x)).err = none ∧
      (Do std c ctx req (Dest.value x)).v = .value x) ∧
    ((jsonDecode std r.Body x).2.2 = none →
      ∃ j n, std.jsonScan r.Body.unread = .value j n ∧
        (GoUnmarshal.unmarshal j x).2 = none ∧
        (Do std c ctx req (Dest.value x)).err = none ∧
        (Do std c ctx req (Dest.value x)).v = .value (GoUnmarshal.unmarshal j x).1) ∧
    (∀ e, (jsonDecode std r.Body x).2.2 = some e → e ≠ .EOF →
      (Do std c ctx req (Dest.value x)).err = some e) ∧
    ((Do goStd (testClient (serve 200 fooBody)) {} testRequest (Dest.value ({} : Foo))).err
        = none ∧
      ∃ y, (Do goStd (testClient (serve 200 fooBody)) {} testRequest
          (Dest.value ({} : Foo))).v = .value y ∧ y = { A := "a" }) := by
  have hd := doReceived_value std r x hs
  have he : (Do std c ctx req (Dest.value x)).err
      = (if (jsonDecode std r.Body x).2.2 = some .EOF then none
         else (jsonDecode std r.Body x).2.2) := by
    rw [Do_eq_of_response std c ctx req _ r hr]
    exact hd.1
  have hv : (Do std c ctx req (Dest.value x)).v = .value (jsonDecode std r.Body x).1 := by
    rw [Do_eq_of_response std c ctx req _ r hr]
    exact hd.2
  refine ⟨he, hv, ?_, ?_, ?_, ⟨rfl, _, rfl, rfl⟩⟩
  · intro hnil heof
    have hj : jsonDecode std r.Body x = (x, { r.Body with unread := [] }, some .EOF) := by
      unfold jsonDecode
      simp [hnil, heof]
    rw [he, hv, hj]
    simp
  · intro hok
    obtain ⟨j, n, hscan, hu, hres⟩ := jsonDecode_ok_inv std r.Body x hok
    refine ⟨j, n, hscan, hu, ?_, ?_⟩
    · rw [he, hok]
      simp
    · rw [hv, hres]
  · intro e hde hne
    rw [he, hde]
    simp [hne]

/-- Witness of C9: status 200 with an empty body leaves a `foo` that held
`before` unchanged and gives a nil error. -/
theorem Do_decode_error_mapping_witness :
    (testClient (serve 200 "")).HTTPClient {} testRequest
        = .ok { StatusCode := 200, Body := { unread := [] } } ∧
    (Do goStd (testClient (serve 200 "")) {} testRequest
        (Dest.value ({ A := "before" } : Foo))).err = none ∧
    (Do goStd (testClient (serve 200 "")) {} testRequest
        (Dest.value ({ A := "before" } : Foo))).v = .value { A := "before" } :=
  ⟨rfl,
   (Do_decode_error_mapping goStd (testClient (serve 200 "")) {} testRequest
      { StatusCode := 200, Body := { unread := [] } } ({ A := "before" } : Foo) rfl
      (by decide)).2.2.1 rfl rfl⟩

/-- C10: when urlStr does not parse, `NewRequest` returns a nil request and the
`*url.Error` of `url.Parse`, whatever the body; when urlStr parses and the
body is non-nil and `json.Marshal` rejects it, `NewRequest` returns a nil
request and that error; and in no case is an error returned together with a
request.  The urlStr `:` gives the parse error `missing protocol scheme`,
and a struct with a field of type `map[interface{}]interface{}` gives a
`*json.UnsupportedTypeError`. -/
theorem NewRequest_construction_errors (std : GoStd) (c : Client) (method urlStr : String)
    (body : Option GoValue) :
    (∀ e, std.urlParse urlStr = .error e →
      NewRequest std c method urlStr body = (none, some (.url e))) ∧
    (∀ rel v e, std.urlParse urlStr = .ok rel → body = some v → std.jsonMarshal v = .error e →
      NewRequest std c method urlStr body = (none, some e)) ∧
    ((NewRequest std c method urlStr body).2 ≠ none →
      (NewRequest std c method urlStr body).1 = none) ∧
    NewRequest goStd (NewClient goStd "ACCESS_TOKEN") "GET" ":" none
      = (none, some (.url { Op := "parse", URL := ":", Err := "missing protocol scheme" })) ∧
    NewRequest goStd (NewClient goStd "ACCESS_TOKEN") "GET" "/" (some invalidBody)
      = (none, some (.jsonUnsupportedType "map[interface {}]interface {}")) := by
  refine ⟨?_, ?_, ?_, rfl, rfl⟩
  · intro e he
    rw [NewRequest_eq]
    simp only [he]
  · intro rel v e hp hb hv
    subst hb
    rw [NewRequest_eq]
    simp only [hp, requestPayload, hv]
  · rw [NewRequest_eq]
    cases std.urlParse urlStr with
    | error e => simp
    | ok rel =>
      simp only
      cases requestPayload std body with
      | error e => simp
      | ok buf =>
        simp only
        cases httpNewRequest std method (std.urlString (requestTarget std c rel)) buf with
        | error e => simp
        | ok req => simp

/-- Witness of C10: the call of `TestNewRequest_invalid_json`. -/
theorem NewRequest_construction_errors_witness :
    goStd.urlParse "/" = .ok { Path := "/" } ∧
    goStd.jsonMarshal invalidBody = .error (.jsonUnsupportedType "map[interface {}]interface {}") ∧
    NewRequest goStd (NewClient goStd "ACCESS_TOKEN") "GET" "/" (some invalidBody)
      = (none, some (.jsonUnsupportedType "map[interface {}]interface {}")) :=
  ⟨rfl, rfl,
   (NewRequest_construction_errors goStd (NewClient goStd "ACCESS_TOKEN") "GET" "/"
      (some invalidBody)).2.1 { Path := "/" } invalidBody _ rfl rfl rfl⟩

/-- C11: `Do` does not return every failure together with the received
response.  A server answers 200 with the body `abc` and the destination is a
writer whose `Write` fails: `Do` returns the error of the writer and a nil
response, although the response was received and its body is drained and
closed.  The other paths do return the received response: with a status of
400 or more, and with a nil or a decode destination, `Do` returns the received
response with its status, whatever the error; with a writer as destination
and a status below 400 the response is returned exactly when the copy
succeeds. -/
theorem Do_copy_failure_returns_nil_response :
    ((testClient (serve 200 "abc")).HTTPClient {} testRequest
        = .ok { StatusCode := 200, Body := { unread := ['a', 'b', 'c'] } } ∧
      (Do goStd (testClient (serve 200 "abc")) {} testRequest
        (Dest.writer failingWriter : Dest Foo)).err = some (.other "write failed") ∧
      (Do goStd (testClient (serve 200 "abc")) {} testRequest
        (Dest.writer failingWriter : Dest Foo)).resp = none ∧
      (Do goStd (testClient (serve 200 "abc")) {} testRequest
        (Dest.writer failingWriter : Dest Foo)).body = some { unread := [], closed := 1 }) ∧
    (∀ (std : GoStd) (α : Type) [GoUnmarshal α] (c : Client) (ctx : Ctx) (req : Request)
        (v : Dest α) (r : Response), c.HTTPClient ctx req = .ok r →
      (r.StatusCode ≥ 400 ∨ (∀ w, v ≠ .writer w) →
        ∃ b, (Do std c ctx req v).body = some b ∧
          (Do std c ctx req v).resp = some { StatusCode := r.StatusCode, Body := b }) ∧
      (∀ w, r.StatusCode < 400 → v = .writer w →
        ((Do std c ctx req v).resp = none ↔ (ioCopy w r.Body).2.2 ≠ none) ∧
        (Do std c ctx req v).err = (ioCopy w r.Body).2.2)) := by
  refine ⟨⟨rfl, rfl, rfl, rfl⟩, ?_⟩
  intro std α _ c ctx req v r hr
  have hD := Do_eq_of_response std c ctx req v r hr
  have hret := doReceived_returns_response std r v
  have hst := (doReceived_response std r v).1
  constructor
  · intro h
    have ht : (doReceived std r v).1 = true := by
      cases hb : (doReceived std r v).1 with
      | true => rfl
      | false =>
        obtain ⟨hlt, w, hw, _⟩ := hret.1 hb
        rcases h with h | h
        · omega
        · exact absurd hw (h w)
    refine ⟨drainAndClose (doReceived std r v).2.2.2.Body, by rw [hD], ?_⟩
    rw [hD]
    simp only [ht, if_true]
    rw [← hst]
  · intro w hs hv
    subst hv
    constructor
    · rw [hD]
      simp only
      constructor
      · intro h
        cases hb : (doReceived std r (Dest.writer w : Dest α)).1 with
        | true => simp [hb] at h
        | false =>
          obtain ⟨_, w1, hw1, hne⟩ := hret.1 hb
          cases hw1
          exact hne
      · intro h
        have hb : (doReceived std r (Dest.writer w : Dest α)).1 = false :=
          hret.2 ⟨hs, w, rfl, h⟩
        simp [hb]
    · rw [hD]
      exact (doReceived_writer std r w hs).1

/-- C12: `Do` does not always fail with the error of the context when the
context is cancelled before the response is complete.  The head of a
response with status 500 has arrived and the context is cancelled while the
body is read, so that the read fails with `context.Canceled`: `Do` returns an
API error with empty fields.  With status 200 and a nil destination `Do`
returns no error at all.  What holds: when the call of `ctxhttp.Do` fails,
`Do` returns its error, a nil response and the destination as it was, and
no body was opened; that error is the error of the context when the context
is done, and the error of the client otherwise. -/
theorem Do_cancelled_while_body_is_read :
    ((testClient (serveInterrupted 500 "\x7b\"error\":\"Inter" canceled)).HTTPClient
        { Err := some canceled } testRequest
        = .ok { StatusCode := 500,
                Body := { unread := "\x7b\"error\":\"Inter".data, failure := some canceled } } ∧
      (Do goStd (testClient (serveInterrupted 500 "\x7b\"error\":\"Inter" canceled))
        { Err := some canceled } testRequest (Dest.value ({} : Foo))).err
        = some (.api { Description := "", Code := "" }) ∧
      (Do goStd (testClient (serveInterrupted 200 "" canceled))
        { Err := some canceled } testRequest (Dest.nil : Dest Foo)).err = none) ∧
    (∀ (std : GoStd) (α : Type) [GoUnmarshal α] (c : Client) (ctx : Ctx) (req : Request)
        (v : Dest α) (e : GoError), c.HTTPClient ctx req = .error e →
      (Do std c ctx req v).err = some (ctx.Err.getD e) ∧
      ctxhttpDo ctx c.HTTPClient req = .error (ctx.Err.getD e) ∧
      (Do std c ctx req v).resp = none ∧
      (Do std c ctx req v).v = v ∧
      (Do std c ctx req v).body = none) := by
  refine ⟨⟨rfl, rfl, rfl⟩, ?_⟩
  intro std α _ c ctx req v e he
  have h : ctxhttpDo ctx c.HTTPClient req = .error (ctx.Err.getD e) := by
    unfold ctxhttpDo
    rw [he]
    cases ctx.Err <;> rfl
  unfold Do
  rw [h]
  exact ⟨rfl, rfl, rfl, rfl, rfl⟩

/-- C13: `DiskService.Get` calls `NewRequest` with the method GET, the path
`disk` and no body, and the request has the method GET and no body.  It
returns a disk if and only if it returns no error.  When `NewRequest` fails,
its error is returned with no disk and no response.  When `Do` returns no
error, the disk that `Do` filled is returned with the response of `Do` and no
error; after a response with a status below 400 that disk is what the decoder
made of the body.  When `Do` returns an error, no disk is returned, with the
response and the error of `Do`; after a response with a status of 400 or
more that error is an API error.  An object with the members `trash_size`,
`total_space`, `used_space` and `system_folders`, the latter with
`applications` and `downloads`, is decoded to the fields `TrashSize`,
`TotalSpace`, `UsedSpace`, `SystemFolders.Applications` and
`SystemFolders.Downloads`. -/
theorem DiskService_Get_disk_iff_no_error (std : GoStd) (c : Client) (ctx : Ctx) :
    ((DiskService.Get std c ctx).1 ≠ none ↔ (DiskService.Get std c ctx).2.2 = none) ∧
    (∀ err, (NewRequest std c "GET" "disk" none).2 = some err →
      DiskService.Get std c ctx = (none, none, some err)) ∧
    (∀ req, NewRequest std c "GET" "disk" none = (some req, none) →
      req.Method = "GET" ∧ req.Body = none ∧
      (∀ err, (Do std c ctx req (Dest.value ({} : Disk))).err = some err →
        DiskService.Get std c ctx
          = (none, (Do std c ctx req (Dest.value ({} : Disk))).resp, some err)) ∧
      ((Do std c ctx req (Dest.value ({} : Disk))).err = none →
        ∃ d, (Do std c ctx req (Dest.value ({} : Disk))).v = .value d ∧
          DiskService.Get std c ctx
            = (some d, (Do std c ctx req (Dest.value ({} : Disk))).resp, none)) ∧
      (∀ r, c.HTTPClient ctx req = .ok r → r.StatusCode < 400 →
        (Do std c ctx req (Dest.value ({} : Disk))).v
          = .value (jsonDecode std r.Body ({} : Disk)).1) ∧
      (∀ r, c.HTTPClient ctx req = .ok r → r.StatusCode ≥ 400 →
        (Do std c ctx req (Dest.value ({} : Disk))).err
          = some (.api (jsonDecode std r.Body ({} : APIError)).1))) ∧
    (∀ (l1 l2 l3 : String) (n1 n2 n3 : Nat) (a d : String) (d0 : Disk),
      parseUint64 l1 = some n1 → parseUint64 l2 = some n2 → parseUint64 l3 = some n3 →
      Disk.unmarshal (.object [("trash_size", .number l1), ("total_space", .number l2),
        ("used_space", .number l3),
        ("system_folders", .object [("applications", .string a), ("downloads", .string d)])]) d0
      = ({ TrashSize := n1, TotalSpace := n2, UsedSpace := n3,
           SystemFolders := { Applications := a, Downloads := d } }, none)) := by
  refine ⟨?_, ?_, ?_, ?_⟩
  · unfold DiskService.Get
    simp only
    split
    · simp
    · rename_i heq
      obtain ⟨req0, hN, _⟩ := NewRequest_of_no_error std c "GET" "disk" none (by rw [heq])
      rw [heq] at hN
      simp at hN
    · split <;> simp
  · intro err herr
    unfold DiskService.Get
    simp only
    split
    · rename_i e heq
      rw [heq] at herr
      simp at herr
      rw [herr]
    · rename_i heq
      rw [heq] at herr
      simp at herr
    · rename_i req heq
      rw [heq] at herr
      simp at herr
  · intro req hreq
    obtain ⟨req0, hN, hm, hp⟩ := NewRequest_of_no_error std c "GET" "disk" none (by rw [hreq])
    rw [hreq] at hN
    have hreq0 : req = withHeaders c req0 := by
      simpa using hN
    have hbody : req0.Body = none := by
      have : (Except.ok none : Except GoError (Option (List Char))) = .ok req0.Body := hp
      injection this with h
      exact h.symm
    refine ⟨?_, ?_, ?_, ?_, ?_, ?_⟩
    · rw [hreq0]
      exact hm
    · rw [hreq0]
      exact hbody
    · intro err herr
      unfold DiskService.Get
      simp only [hreq, herr]
    · intro herr
      obtain ⟨d, hd⟩ := Do_value_dest std c ctx req ({} : Disk)
      refine ⟨d, hd, ?_⟩
      unfold DiskService.Get
      simp only [hreq, herr, hd, Dest.held]
    · intro r hr hs
      rw [Do_eq_of_response std c ctx req _ r hr]
      exact (doReceived_value std r _ hs).2
    · intro r hr hs
      rw [Do_eq_of_response std c ctx req _ r hr]
      exact doReceived_of_status_ge std r _ hs
  · intro l1 l2 l3 n1 n2 n3 a d d0 h1 h2 h3
    have k1 : keyMatches "trash_size" "trash_size" = true := by decide
    have k2 : keyMatches "trash_size" "total_space" = false := by decide
    have k3 : keyMatches "total_space" "total_space" = true := by decide
    have k4 : keyMatches "trash_size" "used_space" = false := by decide
    have k5 : keyMatches "total_space" "used_space" = false := by decide
    have k6 : keyMatches "used_space" "used_space" = true := by decide
    have k7 : keyMatches "trash_size" "system_folders" = false := by decide
    have k8 : keyMatches "total_space" "system_folders" = false := by decide
    have k9 : keyMatches "used_space" "system_folders" = false := by decide
    have k10 : keyMatches "system_folders" "system_folders" = true := by decide
    have k11 : keyMatches "applications" "applications" = true := by decide
    have k12 : keyMatches "applications" "downloads" = false := by decide
    have k13 : keyMatches "downloads" "downloads" = true := by decide
    simp [Disk.unmarshal, Disk.storeMember, SystemFolders.unmarshal, SystemFolders.storeMember,
      unmarshalUint, unmarshalString, h1, h2, h3, k1, k2, k3, k4, k5, k6, k7, k8, k9, k10, k11,
      k12, k13]

set_option maxRecDepth 100000

/-- Witness of C13 on the servers of `TestDisk_Get` and
`TestDisk_Get_with_http_error`, and on a transport that fails. -/
theorem DiskService_Get_disk_iff_no_error_witness :
    NewRequest goStd (testClient (serve 200 diskBody)) "GET" "disk" none
      = (some { Method := "GET",
                URL := { Scheme := "https", Host := "cloud-api.yandex.net", Path := "/v1/disk/" },
                Header := [("Authorization", ["OAuth ACCESS_TOKEN"]), ("Accept", ["application/json"]),
                  ("Content-Type", ["application/json"])],
                Host := "cloud-api.yandex.net" }, none) ∧
    DiskService.Get goStd (testClient (serve 200 diskBody)) {}
      = (some { TrashSize := 4631577437, TotalSpace := 319975063552, UsedSpace := 26157681270,
                SystemFolders := { Applications := "disk:/Applications",
                                   Downloads := "disk:/Downloads/" } },
         some { StatusCode := 200, Body := { unread := [], closed := 1 } }, none) ∧
    DiskService.Get goStd (testClient (serve 409 "conflict\n")) {}
      = (none, some { StatusCode := 409, Body := { unread := [], closed := 1 } },
         some (.api { Description := "", Code := "" })) ∧
    DiskService.Get goStd (testClient (failWith (.other "connection refused"))) {}
      = (none, none, some (.other "connection refused")) ∧
    ((DiskService.Get goStd (testClient (serve 200 diskBody)) {}).1 ≠ none ↔
      (DiskService.Get goStd (testClient (serve 200 diskBody)) {}).2.2 = none) :=
  ⟨rfl, rfl, rfl, rfl,
   (DiskService_Get_disk_iff_no_error goStd (testClient (serve 200 diskBody)) {}).1⟩

/-- C14: `ResourcesService.Get` does not return the metainformation: whatever
the client, the context, the path and the options, it returns a nil result, a
nil response and a nil error, and no request is made. -/
theorem ResourcesService_Get_returns_nil (c : Client) (ctx : Ctx) (path : String)
    (opt : Option ResourcesOptions) :
    ResourcesService.Get c ctx path opt = (none, none, none) :=
  rfl

/-- C15: on every path of `Do` after a response was received, the deferred
function has run when `Do` returns: of what the main part left unread, at
most 512 units are read and discarded, all of it when it is at most 512
units, and the body has been closed once more than when it was received; the
main part does not close it.  The body of a returned response is that body.
When the call of the transport fails there is no body and no response. -/
theorem Do_drains_and_closes (std : GoStd) {α : Type} [GoUnmarshal α] (c : Client) (ctx : Ctx)
    (req : Request) (v : Dest α) :
    (∀ r, c.HTTPClient ctx req = .ok r →
      ∃ final drained,
        (Do std c ctx req v).body = some final ∧
        (doReceived std r v).2.2.2.Body.unread = drained ++ final.unread ∧
        drained.length ≤ 512 ∧
        (drained.length < 512 → final.unread = []) ∧
        (doReceived std r v).2.2.2.Body.closed = r.Body.closed ∧
        final.closed = r.Body.closed + 1 ∧
        final.failure = (doReceived std r v).2.2.2.Body.failure ∧
        (∀ resp, (Do std c ctx req v).resp = some resp → resp.Body = final)) ∧
    (∀ e, c.HTTPClient ctx req = .error e →
      (Do std c ctx req v).body = none ∧ (Do std c ctx req v).resp = none) := by
  constructor
  · intro r hr
    have hD := Do_eq_of_response std c ctx req v r hr
    have hcl := (doReceived_response std r v).2
    refine ⟨drainAndClose (doReceived std r v).2.2.2.Body,
      (doReceived std r v).2.2.2.Body.unread.take 512, by rw [hD], ?_, ?_, ?_, hcl, ?_, rfl, ?_⟩
    · exact (List.take_append_drop 512 _).symm
    · exact List.length_take_le 512 _
    · intro h
      have hlen : (doReceived std r v).2.2.2.Body.unread.length < 512 := by
        rw [List.length_take] at h
        omega
      show (doReceived std r v).2.2.2.Body.unread.drop 512 = []
      exact List.drop_eq_nil_of_le (by omega)
    · show (doReceived std r v).2.2.2.Body.closed + 1 = r.Body.closed + 1
      rw [hcl]
    · intro resp hresp
      rw [hD] at hresp
      simp only at hresp
      split at hresp
      · injection hresp with h
        rw [← h]
      · cases hresp
  · intro e he
    unfold Do ctxhttpDo
    rw [he]
    cases ctx.Err <;> exact ⟨rfl, rfl⟩

/-- Witness of C15: a body of 600 blanks with a nil destination, of which 512
units are discarded, and the bodies of an API error, of a decode error, of a
failed copy and of a success, all closed once. -/
theorem Do_drains_and_closes_witness :
    (∃ final drained,
      (Do goStd (testClient (serve 200 (String.mk (List.replicate 600 ' ')))) {} testRequest
        (Dest.nil : Dest Foo)).body = some final ∧
      (doReceived goStd { StatusCode := 200, Body := { unread := List.replicate 600 ' ' } }
        (Dest.nil : Dest Foo)).2.2.2.Body.unread = drained ++ final.unread ∧
      drained.length ≤ 512 ∧ final.closed = 1) ∧
    (Do goStd (testClient (serve 200 (String.mk (List.replicate 600 ' ')))) {} testRequest
      (Dest.nil : Dest Foo)).body = some { unread := List.replicate 88 ' ', closed := 1 } ∧
    (Do goStd (testClient (serve 409 "conflict\n")) {} testRequest
      (Dest.value ({} : Foo))).body = some { unread := [], closed := 1 } ∧
    (Do goStd (testClient (serve 200 "conflict\n")) {} testRequest
      (Dest.value ({} : Foo))).body = some { unread := [], closed := 1 } ∧
    (Do goStd (testClient (serve 200 "abc")) {} testRequest
      (Dest.writer failingWriter : Dest Foo)).body = some { unread := [], closed := 1 } ∧
    (Do goStd (testClient (serve 200 fooBody)) {} testRequest
      (Dest.value ({} : Foo))).body = some { unread := [], closed := 1 } :=
  ⟨(let ⟨final, drained, h1, h2, h3, _, _, h6, _⟩ :=
      (Do_drains_and_closes goStd (testClient (serve 200 (String.mk (List.replicate 600 ' ')))) {}
        testRequest (Dest.nil : Dest Foo)).1
        { StatusCode := 200, Body := { unread := List.replicate 600 ' ' } } rfl
    ⟨final, drained, h1, h2, h3, h6⟩),
   by decide, rfl, rfl, rfl, rfl⟩

end Yadisk
